import Mathlib

/-!
Verification of the report-assembly pipeline.

This file gives a shallow embedding of the parts of the pipeline that the
checked properties talk about:

* `minio_file_scanner.py` — remote discovery: date filtering of object keys
  and category extraction (`MinioFileScanner.scan_files`,
  `MinioFileScanner._extract_directory_name`);
* `file_scanner.py` — local discovery (`FileScanner.scan_files`);
* `data_processor.py` — the variable binder
  (`CoreDataProcessor.process_all_files` and its per-category helpers);
* `pdf_parser.py` — the document extractor (`PDFParser`);
* `excel2img.py` / `pdf_parser.py` — whitespace cropping (`crop_blank`);
* `template_merger.py` — the merge engine's image-array collapsing
  (`CoreTemplateMerger._process_image_array`).

Python strings are modelled as `List Char` (named `Str`) where substring
and split structure matters, and as Lean `String` in the variable binder,
where only equality and substring tests occur.  Python dicts (insertion
ordered) are modelled as association lists with
assign-in-place-or-append semantics.  External collaborators (filesystem,
object store, office engine, remote parse service) are passed in as
explicit oracle functions; Python exceptions are modelled with `Except`.
-/

namespace Doc

/-- Model of a Python string: a list of characters. -/
abbrev Str := List Char

/-- Shorthand turning a Lean string literal into the model type. -/
def lit (s : String) : Str := s.toList

/-- `pfxOf p l` holds iff `p` is a leading run of `l`
(Python `str.startswith`). -/
def pfxOf : Str → Str → Bool
  | [], _ => true
  | _ :: _, [] => false
  | a :: as, b :: bs => a = b && pfxOf as bs

/-- `subOf s l` holds iff `s` occurs contiguously inside `l`
(Python `in` on strings). -/
def subOf (s : Str) : Str → Bool
  | [] => pfxOf s []
  | c :: cs => pfxOf s (c :: cs) || subOf s cs

/-- `sfxOf s l` holds iff `l` ends with `s` (Python `str.endswith`). -/
def sfxOf (s l : Str) : Bool := pfxOf s.reverse l.reverse

/-- Python `str.split('/')`. -/
def splitSlash : Str → List Str
  | [] => [[]]
  | c :: cs =>
    if c = '/' then [] :: splitSlash cs
    else
      match splitSlash cs with
      | [] => [[c]]
      | s :: ss => (c :: s) :: ss

/-- Join with `'/'`; inverse of `splitSlash`. -/
def joinSlash : List Str → Str
  | [] => []
  | [s] => s
  | s :: ss => s ++ '/' :: joinSlash ss

/-- `os.path.dirname` on POSIX paths: everything up to the last `'/'`,
with trailing slashes stripped unless the head is all slashes. -/
def pyDirname (p : Str) : Str :=
  let headRev := p.reverse.dropWhile (fun c => c ≠ '/')
  if headRev = [] then []
  else if headRev.all (fun c => c = '/') then headRev.reverse
  else (headRev.dropWhile (fun c => c = '/')).reverse

/-- `os.path.basename` on POSIX paths: everything after the last `'/'`. -/
def pyBasename (p : Str) : Str :=
  (p.reverse.takeWhile (fun c => c ≠ '/')).reverse

/-- The extension part of `os.path.splitext` on POSIX paths: the suffix of
the basename starting at its last dot, provided some earlier character of
the basename is not a dot (leading dots do not start an extension). -/
def pyExt (p : Str) : Str :=
  let br := (pyBasename p).reverse
  let extRev := br.takeWhile (fun c => c ≠ '.')
  if extRev.length = br.length then []
  else if (br.drop (extRev.length + 1)).any (fun c => c ≠ '.') then
    '.' :: extRev.reverse
  else []

/-- Python `str.lower` (ASCII case folding suffices for the values used). -/
def lowerStr (s : Str) : Str := s.map Char.toLower

/-! ### Python dicts as insertion-ordered association lists -/

/-- Python dict assignment `m[k] = v`: overwrite in place when the key is
present (keys are unique in a dict), append otherwise. -/
def dictSet {κ α : Type} [DecidableEq κ] : List (κ × α) → κ → α → List (κ × α)
  | [], k, v => [(k, v)]
  | (a, b) :: t, k, v =>
    if a = k then (k, v) :: t else (a, b) :: dictSet t k v

/-- Python dict lookup `m.get(k)` / `m[k]`. -/
def dictGet? {κ α : Type} [DecidableEq κ] : List (κ × α) → κ → Option α
  | [], _ => none
  | (a, b) :: t, k => if a = k then some b else dictGet? t k

/-- Python `k in m`. -/
def dictHas {κ α : Type} [DecidableEq κ] (m : List (κ × α)) (k : κ) : Bool :=
  (dictGet? m k).isSome

/-- The key list of a dict (insertion order). -/
def dictKeys {κ α : Type} (m : List (κ × α)) : List κ :=
  m.map (fun kv => kv.1)

/-- `file_dict[k].append(v)` preceded by `file_dict[k] = []` when `k` is
absent — the accumulation step shared by both scanners. -/
def dictPush {κ : Type} [DecidableEq κ] (m : List (κ × List α)) (k : κ)
    (v : α) : List (κ × List α) :=
  match dictGet? m k with
  | some l => dictSet m k (l ++ [v])
  | none => m ++ [(k, [v])]

/-! ### Remote discovery (`minio_file_scanner.py`) -/

/-- The extensions accepted by both scanners
(`supported_extensions = ['.docx', '.xlsx', '.pdf']`). -/
def supportedExtensions : List Str := [lit ".docx", lit ".xlsx", lit ".pdf"]

/-- `True` iff the string is six characters long and all digits
(the `path_parts[-1].isdigit() and len(path_parts[-1]) == 6` test). -/
def isDigit6 (s : Str) : Bool :=
  (s ≠ [] && s.all Char.isDigit) && s.length = 6

/-- The date-window part of the per-object filter in
`MinioFileScanner.scan_files`: the key must contain `"/<target>/"`
(`target_date_dir not in object_name`) and must not end with it
(`object_name.endswith(target_date_dir)`). -/
def minioDateKeep (targetDate : Str) (objectName : Str) : Bool :=
  let dateDir : Str := '/' :: targetDate ++ ['/']
  subOf dateDir objectName && !sfxOf dateDir objectName

/-- The full per-object filter of `MinioFileScanner.scan_files`
(lines 80–97): drop office lock files (`~$` basenames), apply the
date-window filter, then require a supported extension. -/
def minioKeep (targetDate : Str) (objectName : Str) : Bool :=
  if pfxOf (lit "~$") (pyBasename objectName) then false
  else if !minioDateKeep targetDate objectName then false
  else supportedExtensions.contains (lowerStr (pyExt objectName))

/-- The base-directory stripping step shared by
`_extract_directory_name`: drop `"<base_prefix>/"` when the key starts
with it. -/
def stripBasePfx (basePfx : Str) (objectName : Str) : Str :=
  if basePfx ≠ [] && pfxOf (basePfx ++ ['/']) objectName then
    objectName.drop (basePfx.length + 1)
  else objectName

/-- `MinioFileScanner._extract_directory_name`: strip the base-directory
prelude, take the parent path of the key, and return the last directory
segment — or the one before it when the last segment is a six-digit date
directory — or the sentinel root category when there is no parent. -/
def extractDirectoryName (basePfx : Str) (objectName : Str) : Str :=
  let relativePath := stripBasePfx basePfx objectName
  let directoryPath := pyDirname relativePath
  if directoryPath = [] then lit "根目录"
  else
    let pathParts := splitSlash directoryPath
    if pathParts.length ≥ 2 && isDigit6 (pathParts.getLastD []) then
      pathParts.getD (pathParts.length - 2) []
    else pathParts.getLastD []

/-- Modelled from the spec sentence behind the category claim: category is
the segment immediately preceding the (first) six-digit date segment of
the key's parent path, the immediate parent when no date segment exists,
and the sentinel root category when there is no parent at all. -/
def specCategory (basePfx : Str) (objectName : Str) : Str :=
  let relativePath := stripBasePfx basePfx objectName
  let dirs := (splitSlash relativePath).dropLast
  if dirs = [] then lit "根目录"
  else
    match dirs.findIdx? isDigit6 with
    | some (i + 1) => dirs.getD i []
    | some 0 => lit "根目录"
    | none => dirs.getLastD []

/-- The object-store collaborator as remote discovery sees it: the bucket
check, the recursive listing under the base prelude, and per-object
download (`None` on failure). -/
structure MinioEnv where
  bucketExists : Bool
  objects : List Str
  download : Str → Option Str

/-- `MinioFileScanner.scan_files`: filter each listed key, download it,
and group the local paths by extracted directory name. -/
def minioScan (basePfx : Str) (targetDate : Str) (env : MinioEnv) :
    List (Str × List Str) :=
  if !env.bucketExists then []
  else
    env.objects.foldl
      (fun fileDict obj =>
        if minioKeep targetDate obj then
          match env.download obj with
          | some localPath =>
              dictPush fileDict (extractDirectoryName basePfx obj) localPath
          | none => fileDict
        else fileDict)
      []

/-! ### Local discovery (`file_scanner.py`) -/

/-- One entry of `os.listdir` on a category subdirectory. -/
structure LocalFile where
  name : Str
  isFile : Bool

/-- `FileScanner._scan_directory`: keep regular files that are not office
lock files and have a supported extension; paths are joined onto the
directory path. -/
def scanDirectory (directoryPath : Str) (entries : List LocalFile) :
    List Str :=
  (entries.filter (fun f =>
    f.isFile && !pfxOf (lit "~$") f.name
      && supportedExtensions.contains (lowerStr (pyExt f.name)))).map
    (fun f => directoryPath ++ '/' :: f.name)

/-- The filesystem as local discovery sees it: whether the base path
exists and the first-level listing with each subdirectory's contents. -/
structure LocalEnv where
  baseExists : Bool
  listing : List (Str × Bool × List LocalFile)

/-- `FileScanner.scan_files`: one dict entry per first-level subdirectory
that contains at least one matching file. -/
def fileScannerScan (basePath : Str) (env : LocalEnv) :
    List (Str × List Str) :=
  if !env.baseExists then []
  else
    env.listing.foldl
      (fun fileDict item =>
        if item.2.1 then
          let files := scanDirectory (basePath ++ '/' :: item.1) item.2.2
          if files ≠ [] then dictSet fileDict item.1 files else fileDict
        else fileDict)
      []

/-! ### The variable binder (`data_processor.py`)

Here only equality and substring tests on strings occur, so Lean `String`
is used directly.  `process_all_files` takes the scanner result
(`fileDict`) as an input, and the conversion engines as oracle functions
in `ProcEnv`. -/

/-- Substring test on Lean strings (Python `in`). -/
def subStr (needle hay : String) : Bool := subOf needle.toList hay.toList

/-- Suffix test on Lean strings (Python `str.endswith`). -/
def endsStr (s suf : String) : Bool := sfxOf suf.toList s.toList

/-- `os.path.basename` on Lean strings. -/
def baseStr (s : String) : String := (pyBasename s.toList).asString

/-- A value stored in the `variables` dict: plain strings, or the tagged
dicts `{'type': ..., 'value': ...}` built by the processor. -/
inductive PyVal where
  | str (s : String)
  | subDoc (v : String)
  | image (v : String)
  | imageArray (vs : List String)
  | typedText (s : String)
  deriving DecidableEq, Repr

/-- The `variables` dict threaded through the processor. -/
abbrev VarMap := List (String × PyVal)

/-- Outcome of one `PDFParser.parse_pdf` call as `_process_pdf_file`
observes it. -/
inductive PdfOutcome where
  | imageMode (paths : List String)
  | apiMode (markdown : String)
  | failed (err : String)
  | raised (err : String)

/-- The conversion engines behind the processor: `os.path.exists`, the
spreadsheet renderer `process_file(path, ..., sheet_name)`, whether a PDF
parser was constructed, the per-file PDF outcome, and the first-table
sub-document derived by `_extract_first_table_from_docx`. -/
structure ProcEnv where
  pathExists : String → Bool
  processFile : String → Option String → List String
  pdfAvailable : Bool
  pdfOutcome : String → PdfOutcome
  firstTable : String → String

/-- `CoreDataProcessor._process_pdf_file`: on success bind
`core_device_hardware` (when requested) to the image array or text;
failures and exceptions become placeholder strings on the same slot. -/
def processPdfFile (env : ProcEnv) (filePath : String) (vars : VarMap) :
    VarMap :=
  if !env.pdfAvailable then vars
  else
    match env.pdfOutcome filePath with
    | .imageMode paths =>
        if dictHas vars "core_device_hardware" then
          dictSet vars "core_device_hardware" (.imageArray paths)
        else vars
    | .apiMode markdown =>
        if dictHas vars "core_device_hardware" then
          dictSet vars "core_device_hardware" (.typedText markdown)
        else vars
    | .failed err =>
        if dictHas vars "core_device_hardware" then
          dictSet vars "core_device_hardware" (.str ("[PDF解析失败: " ++ err ++ "]"))
        else vars
    | .raised err =>
        if dictHas vars "core_device_hardware" then
          dictSet vars "core_device_hardware" (.str ("[PDF处理异常: " ++ err ++ "]"))
        else vars

/-- One fault-drill spreadsheet block of
`_process_monitor_center_operation_report_files`: render the `演练记录`
sheet and bind image 1 (sole image) or image 2 (several images). -/
def drillSet (env : ProcEnv) (vars : VarMap) (filePath slot : String) :
    VarMap :=
  let imgs := env.processFile filePath (some "演练记录")
  if imgs.length > 0 then
    dictSet vars slot
      (.image (if imgs.length = 1 then imgs.getD 0 "" else imgs.getD 1 ""))
  else vars

/-- The day/night pair of fault-drill blocks (the source repeats the
block for the day and night shift with two slot names). -/
def drillPair (env : ProcEnv) (vars : VarMap) (filePath filename : String)
    (daySlot nightSlot : String) : VarMap :=
  let va :=
    if subStr "白班" filename then drillSet env vars filePath daySlot
    else vars
  if subStr "夜班" filename then drillSet env va filePath nightSlot
  else va

/-- Per-file step of
`_process_monitor_center_operation_report_files`. -/
def processMonitorFile (env : ProcEnv) (vars : VarMap) (filePath : String) :
    VarMap :=
  let filename := baseStr filePath
  if endsStr filePath ".pdf" then processPdfFile env filePath vars
  else if endsStr filePath ".docx" then
    if subStr "网络故障统计" filename then
      if dictHas vars "network_failure_stats" then
        dictSet vars "network_failure_stats" (.subDoc (env.firstTable filePath))
      else vars
    else if subStr "黑洞路由器" filename then
      if dictHas vars "blackhole_ip_stats" then
        dictSet vars "blackhole_ip_stats" (.subDoc filePath)
      else vars
    else if subStr "IP" filename then
      if dictHas vars "ip_statistics" then
        dictSet vars "ip_statistics" (.subDoc filePath)
      else vars
    else vars
  else if endsStr filePath ".xlsx" then
    if !env.pathExists filePath then vars
    else
      let v1 :=
        if subStr "中国联通1出口故障演习" filename then
          drillPair env vars filePath filename
            "fault_drill_plan_unicom_day" "fault_drill_plan_unicom_night"
        else vars
      if subStr "联通国际出口" filename then
        drillPair env v1 filePath filename
          "fault_drill_plan_unicom_international_day"
          "fault_drill_plan_unicom_international_night"
      else v1
  else vars

/-- Per-file step of
`_process_core_network_traffic_statistics_report_files`.  The
`if imgs[1]:` read in the two-slot branch is modelled by `imgs[1]?`:
`none` (an out-of-range read) raises `IndexError`. -/
def processTrafficFile (env : ProcEnv) (vars : VarMap) (filePath : String) :
    Except String VarMap :=
  let filename := baseStr filePath
  if endsStr filePath ".pdf" then .ok (processPdfFile env filePath vars)
  else if endsStr filePath ".docx" then
    if subStr "专线托管" filename then
      .ok (if dictHas vars "dedicated_traffic_peak" then
        dictSet vars "dedicated_traffic_peak" (.subDoc filePath) else vars)
    else if subStr "带宽使用" filename then
      .ok (if dictHas vars "bandwidth_usage" then
        dictSet vars "bandwidth_usage" (.subDoc filePath) else vars)
    else .ok vars
  else if endsStr filePath ".xlsx" then
    if !env.pathExists filePath then .ok vars
    else if subStr "互联网出口业务流量" filename then
      let imgs := env.processFile filePath none
      if imgs.length > 0 then
        let v1 := dictSet vars "internet_traffic_stats" (.image (imgs.getD 0 ""))
        match imgs[1]? with
        | none => .error "IndexError: list index out of range"
        | some img1 =>
            .ok (if img1 ≠ "" then dictSet v1 "isp_bandwidth" (.image img1) else v1)
      else .ok vars
    else if subStr "IDC业务出口流量" filename then
      let imgs := env.processFile filePath none
      .ok (if imgs.length > 0 then
        dictSet vars "idc_traffic_stats" (.image (imgs.getD 0 "")) else vars)
    else if subStr "ISP业务出口流量" filename then
      let imgs := env.processFile filePath none
      .ok (if imgs.length > 0 then
        dictSet vars "isp_traffic_stats" (.image (imgs.getD 0 "")) else vars)
    else .ok vars
  else .ok vars

/-- Per-file step of `_process_core_equipment_operation_report_files`. -/
def processEquipmentFile (env : ProcEnv) (vars : VarMap) (filePath : String) :
    VarMap :=
  let filename := baseStr filePath
  if endsStr filePath ".pdf" then processPdfFile env filePath vars
  else if subStr "核心设备硬件指标" filename then
    if dictHas vars "core_device_hardware" then
      dictSet vars "core_device_hardware"
        (.image ("核心设备硬件指标报告：" ++ filename ++ "\n文件路径：" ++ filePath))
    else vars
  else vars

/-- Per-file step of `_process_monthly_plan_and_summary_files`; the
two-slot spreadsheet branch has the same `imgs[1]` read as the traffic
processor. -/
def processMonthlyFile (env : ProcEnv) (vars : VarMap) (filePath : String) :
    Except String VarMap :=
  let filename := baseStr filePath
  if endsStr filePath ".pdf" then .ok (processPdfFile env filePath vars)
  else if endsStr filePath ".docx" then
    if subStr "报告及建议" filename then
      .ok (if dictHas vars "device_running_report_and_suggestion" then
        dictSet vars "device_running_report_and_suggestion" (.subDoc filePath)
      else vars)
    else .ok vars
  else if endsStr filePath ".xlsx" then
    if !env.pathExists filePath then .ok vars
    else
      let imgs := env.processFile filePath none
      if imgs.length > 0 then
        let v1 := dictSet vars "monthly_work_plan" (.image (imgs.getD 0 ""))
        match imgs[1]? with
        | none => .error "IndexError: list index out of range"
        | some img1 =>
            .ok (if img1 ≠ "" then dictSet v1 "sdwan_project" (.image img1) else v1)
      else .ok vars
  else .ok vars

/-- A Python `for` loop whose body may raise: fold a fallible step over a
list, propagating the first exception. -/
def foldProcE (f : VarMap → String → Except String VarMap) :
    VarMap → List String → Except String VarMap
  | vars, [] => .ok vars
  | vars, p :: t =>
    match f vars p with
    | .error e => .error e
    | .ok v => foldProcE f v t

/-- The per-directory dispatch of `process_all_files` (substring match on
the directory name). -/
def processDirectory (env : ProcEnv) (vars : VarMap) (dir : String)
    (files : List String) : Except String VarMap :=
  if subStr "监控中心运维报告" dir then .ok (files.foldl (processMonitorFile env) vars)
  else if subStr "核心网络流量统计报告" dir then foldProcE (processTrafficFile env) vars files
  else if subStr "核心设备运行报告" dir then .ok (files.foldl (processEquipmentFile env) vars)
  else if subStr "月度计划及总结" dir then foldProcE (processMonthlyFile env) vars files
  else .ok vars

/-- The `for directory, files in file_dict.items()` loop of
`process_all_files`, propagating exceptions from the dispatched
processors. -/
def foldDirs (env : ProcEnv) :
    VarMap → List (String × List String) → Except String VarMap
  | vars, [] => .ok vars
  | vars, d :: t =>
    match processDirectory env vars d.1 d.2 with
    | .error e => .error e
    | .ok v => foldDirs env v t

/-- The `variable_mapping` catalog of `CoreDataProcessor.__init__`. -/
def variableMapping : List (String × String) :=
  [("report_date", "报告生成时间"),
   ("year", "年份"),
   ("month", "月份"),
   ("network_failure_stats", "网络故障统计"),
   ("blackhole_ip_stats", "黑洞路由器IP统计"),
   ("ip_statistics", "IP统计信息"),
   ("fault_drill_plan_unicom_night", "中国联通出口故障演习方案（夜班及节假日）"),
   ("fault_drill_plan_unicom_day", "中国联通出口故障演习方案（白班）"),
   ("fault_drill_plan_unicom_international_night", "联通国际出口故障演习方案（夜班及节假日）"),
   ("fault_drill_plan_unicom_international_day", "联通国际出口故障演习方案（白班）"),
   ("internet_traffic_stats", "互联网出口业务流量统计"),
   ("isp_bandwidth", "ISP业务宽带复用比"),
   ("idc_traffic_stats", "IDC业务出口流量统计"),
   ("isp_traffic_stats", "ISP业务出口流量统计"),
   ("dedicated_traffic_peak", "专线托管峰值流量"),
   ("bandwidth_usage", "带宽使用统计"),
   ("core_device_hardware", "核心设备硬件指标"),
   ("monthly_work_plan", "计划性项目"),
   ("sdwan_project", "SDWAN项目"),
   ("device_running_report_and_suggestion", "网络设备运行报告和建议")]

/-- The initial value given to a requested slot name: the catalog
placeholder, or the unknown-variable placeholder. -/
def initValue (name : String) : PyVal :=
  match dictGet? variableMapping name with
  | some label => .str ("[" ++ label ++ "：暂无数据]")
  | none => .str ("[未知变量: " ++ name ++ "]")

/-- The initialisation loop over a requested slot-name set. -/
def initRequested (l : List String) : VarMap :=
  l.foldl (fun m k => dictSet m k (initValue k)) []

/-- The initialisation loop over the whole catalog (when no slot set is
requested, or the requested set is empty and therefore falsy). -/
def initCatalog : VarMap :=
  variableMapping.foldl
    (fun m kv => dictSet m kv.1 (.str ("[" ++ kv.2 ++ "：暂无数据]"))) []

/-- The slot names the per-category processors assign *without* an
`if name in variables` guard: the fault-drill image slots and the
two-slot / one-slot spreadsheet image slots.  These are the only keys
file processing can add to the map beyond the initialised ones. -/
def unguardedSlots : List String :=
  ["fault_drill_plan_unicom_day", "fault_drill_plan_unicom_night",
   "fault_drill_plan_unicom_international_day",
   "fault_drill_plan_unicom_international_night",
   "internet_traffic_stats", "isp_bandwidth",
   "idc_traffic_stats", "isp_traffic_stats",
   "monthly_work_plan", "sdwan_project"]

/-- Python `str.strip()` (kernel-computable model). -/
def trimStr (s : String) : String :=
  ((s.toList.dropWhile Char.isWhitespace).reverse.dropWhile
    Char.isWhitespace).reverse.asString

/-- Python slicing `s[:n]`. -/
def takeStr (s : String) (n : Nat) : String := (s.toList.take n).asString

/-- Python slicing `s[n:]`. -/
def dropStr (s : String) (n : Nat) : String := (s.toList.drop n).asString

/-- The dates a run observes: `datetime.now()` formatted for the report
header, and last month's fields for the default target date. -/
structure RunDate where
  reportDate : String
  lastMonthYear : String
  lastMonthMonth : String

/-- `CoreDataProcessor.process_all_files`.  `templateVariables = some l`
models a requested slot-name set (Python set truthiness: the empty set
behaves like `None`); `fileDict` is the scanner result consumed by the
per-directory dispatch. -/
def processAllFiles (templateVariables : Option (List String))
    (targetDate : Option String) (now : RunDate)
    (fileDict : List (String × List String)) (env : ProcEnv) :
    Except String VarMap :=
  let vars : VarMap :=
    match templateVariables with
    | some l => if l ≠ [] then initRequested l else initCatalog
    | none => initCatalog
  let vars :=
    if dictHas vars "report_date" then
      dictSet vars "report_date" (.str now.reportDate)
    else vars
  let vars :=
    match targetDate with
    | none =>
        dictSet (dictSet vars "year" (.str now.lastMonthYear))
          "month" (.str now.lastMonthMonth)
    | some s =>
        if trimStr s = "" then
          dictSet (dictSet vars "year" (.str now.lastMonthYear))
            "month" (.str now.lastMonthMonth)
        else
          dictSet (dictSet vars "year" (.str (takeStr (trimStr s) 4)))
            "month" (.str (dropStr (trimStr s) 4))
  foldDirs env vars fileDict

/-- The key list of a processor run that completed normally. -/
def runKeys : Except String VarMap → Option (List String)
  | .ok m => some (dictKeys m)
  | .error _ => none

/-- A slot's value in a processor run that completed normally. -/
def runGet (r : Except String VarMap) (k : String) : Option PyVal :=
  match r with
  | .ok m => dictGet? m k
  | .error _ => none

/-- `True` iff the processor run completed without an exception. -/
def runOk : Except String VarMap → Bool
  | .ok _ => true
  | .error _ => false

/-! ### The document extractor (`pdf_parser.py`) -/

/-- Python `str.lower` on Lean strings. -/
def strLower (s : String) : String := (s.toList.map Char.toLower).asString

/-- The name part of `os.path.splitext(os.path.basename(p))[0]`. -/
def stemStr (s : String) : String :=
  let b := pyBasename s.toList
  (b.take (b.length - (pyExt s.toList).length)).asString

/-- The `PDFParser` state set up by `__init__`. -/
structure PdfParser where
  apiUrl : String
  parseMode : String
  imageDpi : Nat

/-- `PDFParser.__init__`: lower-case the mode and fall back to `api` when
it is not one of `api` / `image`. -/
def pdfParserInit (apiUrl parseMode : String) (imageDpi : Nat) : PdfParser :=
  let m := strLower parseMode
  { apiUrl := apiUrl
    parseMode := if ¬(m = "api" ∨ m = "image") then "api" else m
    imageDpi := imageDpi }

/-- What the remote parse service did for one call, as seen inside
`_call_parse_api`. -/
inductive ApiResponse where
  | requestError (e : String)
  | badStatus (e : String)
  | missingMarkdown
  | ok (markdown : String)

/-- `PDFParser._call_parse_api`: network failures and non-2xx statuses
raise a wrapped request error, a response without `markdown` raises a
wrapped value error, otherwise the markdown field is returned. -/
def callParseApi : ApiResponse → Except String String
  | .requestError e => .error ("API请求失败: " ++ e)
  | .badStatus e => .error ("API请求失败: " ++ e)
  | .missingMarkdown => .error ("解析API响应失败: API响应中缺少markdown字段")
  | .ok markdown => .ok markdown

/-- The result dict of `parse_pdf`. -/
structure ParseResult where
  success : Bool
  markdown : String
  images : List String
  imagePaths : List String
  error : Option String
  parseMode : Option String
  deriving DecidableEq, Repr

/-- The external world of one `parse_pdf` call: the source file check,
the remote service response, the image-extraction post-processing step,
availability of the rasterisation backend, the page conversion outcome
(page count or failure), and the image output directory. -/
structure PdfEnv where
  fileOnDisk : Bool
  apiResponse : ApiResponse
  extractAndSave : String → Except String (List String × String)
  pdf2imageAvailable : Bool
  convertPages : Except String Nat
  outputDir : String

/-- `PDFParser._parse_pdf_with_api`: empty markdown is an unsuccessful
result; otherwise extract embedded images and return a successful one. -/
def parsePdfWithApi (env : PdfEnv) (_pdfPath : String)
    (extractImages : Bool) : Except String ParseResult :=
  match callParseApi env.apiResponse with
  | .error e => .error e
  | .ok markdownContent =>
    if markdownContent = "" then
      .ok { success := false, markdown := "", images := [], imagePaths := [],
            error := some "未获取到解析内容", parseMode := none }
    else
      match (if extractImages then env.extractAndSave markdownContent
             else .ok ([], markdownContent)) with
      | .error e => .error e
      | .ok (imagesInfo, processedMarkdown) =>
          .ok { success := true, markdown := processedMarkdown,
                images := imagesInfo, imagePaths := [],
                error := none, parseMode := some "api" }

/-- `PDFParser._parse_pdf_as_images`: missing backend, conversion failure
and an empty page list raise; page `i` is saved as
`<stem>_page<i>.png` under the output directory. -/
def parsePdfAsImages (env : PdfEnv) (pdfPath : String) :
    Except String ParseResult :=
  if !env.pdf2imageAvailable then
    .error "PDF转图片模式需要安装pdf2image和Pillow库: pip install pdf2image pillow"
  else
    match env.convertPages with
    | .error e => .error ("PDF转图片失败: " ++ e)
    | .ok pageCount =>
      if pageCount = 0 then .error "PDF转图片结果为空"
      else
        .ok { success := true, markdown := "", images := [],
              imagePaths := (List.range pageCount).map (fun i =>
                env.outputDir ++ "/" ++ stemStr pdfPath ++ "_page"
                  ++ toString (i + 1) ++ ".png"),
              error := none, parseMode := some "image" }

/-- `PDFParser.parse_pdf`: a missing source file raises
(`FileNotFoundError`, modelled as `.error`); everything else runs inside
a `try` whose `except` converts any raise into an unsuccessful result
dict. -/
def parsePdf (p : PdfParser) (env : PdfEnv) (pdfPath : String)
    (extractImages : Bool) : Except String ParseResult :=
  if !env.fileOnDisk then .error ("PDF文件不存在: " ++ pdfPath)
  else
    let body : Except String ParseResult :=
      if p.parseMode = "api" then parsePdfWithApi env pdfPath extractImages
      else if p.parseMode = "image" then parsePdfAsImages env pdfPath
      else .error ("不支持的解析模式: " ++ p.parseMode)
    match body with
    | .ok r => .ok r
    | .error e =>
        .ok { success := false, markdown := "", images := [],
              imagePaths := [], error := some e,
              parseMode := some p.parseMode }

/-! ### Whitespace cropping (`crop_blank` in `excel2img.py`, duplicated
as `PDFParser._crop_blank`) -/

/-- An RGB pixel. -/
abbrev Pix := Nat × Nat × Nat

/-- A raster page: rows of pixels. -/
abbrev Img := List (List Pix)

/-- `ImageChops.difference(img, white)` on one pixel: channel-wise
absolute difference from `(255, 255, 255)`. -/
def diffWhite (p : Pix) : Pix :=
  (((p.1 : Int) - 255).natAbs, ((p.2.1 : Int) - 255).natAbs,
   ((p.2.2 : Int) - 255).natAbs)

/-- A pixel of the difference image is non-zero (contributes to
`getbbox`). -/
def pixNonzero (p : Pix) : Bool := !(p.1 = 0 && p.2.1 = 0 && p.2.2 = 0)

/-- The pixel predicate `crop_blank` effectively crops by: difference
from pure white is non-zero. -/
def isContent (p : Pix) : Bool := pixNonzero (diffWhite p)

/-- Modelled from the spec's words "non-white pixels (threshold
near-white)", with the source's unused `threshold=240` default: a pixel
counts as content when some channel is below the threshold. -/
def nearWhiteContent (p : Pix) : Bool :=
  p.1 < 240 || p.2.1 < 240 || p.2.2 < 240

/-- The positions `(x, y)` of the pixels selected by `content`. -/
def contentPositions (content : Pix → Bool) (img : Img) :
    List (Nat × Nat) :=
  (img.enum.map (fun r =>
    r.2.enum.filterMap (fun cp =>
      if content cp.2 then some (cp.1, r.1) else none))).flatten

/-- Head-seeded fold minimum. -/
def minimumD : List Nat → Nat
  | [] => 0
  | x :: xs => xs.foldl Nat.min x

/-- Head-seeded fold maximum. -/
def maximumD : List Nat → Nat
  | [] => 0
  | x :: xs => xs.foldl Nat.max x

/-- `Image.getbbox` of the difference image: the bounding box
`(left, upper, right, lower)` of the selected pixels, exclusive on the
right/lower edges; `none` when no pixel is selected. -/
def getbboxBy (content : Pix → Bool) (img : Img) :
    Option (Nat × Nat × Nat × Nat) :=
  let ps := contentPositions content img
  if ps = [] then none
  else some (minimumD (ps.map (fun q => q.1)), minimumD (ps.map (fun q => q.2)),
    maximumD (ps.map (fun q => q.1)) + 1, maximumD (ps.map (fun q => q.2)) + 1)

/-- `Image.crop(box)`. -/
def cropBox (img : Img) (l u r d : Nat) : Img :=
  ((img.drop u).take (d - u)).map (fun row => (row.drop l).take (r - l))

/-- `crop_blank`: crop to the bounding box of the difference from white,
or return the image unchanged when there is none. -/
def cropBlank (img : Img) : Img :=
  match getbboxBy isContent img with
  | none => img
  | some (l, u, r, d) => cropBox img l u r d

/-- Modelled from the spec: the same crop under the near-white-threshold
reading of "non-white". -/
def cropBlankNearWhite (img : Img) : Img :=
  match getbboxBy nearWhiteContent img with
  | none => img
  | some (l, u, r, d) => cropBox img l u r d

/-! ### The merge engine's image-array collapsing (`template_merger.py`) -/

/-- The collaborators `_process_image_array` consults per path:
`os.path.exists` and whether `InlineImage` construction succeeds. -/
structure MergeEnv where
  fileOnDisk : String → Bool
  inlineOk : String → Bool

/-- What an `image_array` variable is bound to in the rendering context. -/
inductive BoundImage where
  | single (p : String)
  | multiple (ps : List String)
  deriving DecidableEq, Repr

/-- `CoreTemplateMerger._process_image_array`: convert each existing path
to an inline image (skipping failures), then collapse a one-element
result to a single image. -/
def processImageArray (env : MergeEnv) (imagePaths : List String) :
    BoundImage :=
  if imagePaths = [] then .multiple []
  else
    let inlineImages := imagePaths.foldl (fun acc p =>
      if env.fileOnDisk p then
        (if env.inlineOk p then acc ++ [p] else acc)
      else acc) []
    if inlineImages.length = 1 then .single (inlineImages.getD 0 "")
    else .multiple inlineImages

end Doc

namespace Doc

/-! ### Lemmas about the string model -/

theorem pfxOf_iff (p : Str) : ∀ l, pfxOf p l = true ↔ ∃ t, l = p ++ t := by
  induction p with
  | nil => intro l; simp [pfxOf]
  | cons a as ih =>
    intro l
    cases l with
    | nil => simp [pfxOf]
    | cons b bs =>
      simp only [pfxOf, Bool.and_eq_true, decide_eq_true_eq, ih bs,
        List.cons_append, List.cons.injEq]
      constructor
      · rintro ⟨rfl, t, rfl⟩; exact ⟨t, rfl, rfl⟩
      · rintro ⟨t, rfl, rfl⟩; exact ⟨rfl, t, rfl⟩

theorem subOf_iff (s : Str) : ∀ l, subOf s l = true ↔ ∃ a b, l = a ++ s ++ b := by
  intro l
  induction l with
  | nil =>
    simp only [subOf, pfxOf_iff]
    constructor
    · rintro ⟨t, ht⟩
      exact ⟨[], t, ht⟩
    · rintro ⟨a, b, hab⟩
      have h0 : a ++ s ++ b = [] := hab.symm
      have h1 := List.append_eq_nil.mp h0
      have h2 := List.append_eq_nil.mp h1.1
      exact ⟨[], by simp [h2.2]⟩
  | cons c cs ih =>
    simp only [subOf, Bool.or_eq_true, pfxOf_iff, ih]
    constructor
    · rintro (⟨t, ht⟩ | ⟨a, b, hab⟩)
      · exact ⟨[], t, by simpa using ht⟩
      · exact ⟨c :: a, b, by simp [hab]⟩
    · rintro ⟨a, b, hab⟩
      cases a with
      | nil => exact .inl ⟨b, by simpa using hab⟩
      | cons a0 as =>
        right
        refine ⟨as, b, ?_⟩
        simpa using (List.cons.inj hab).2

theorem sfxOf_iff (s l : Str) : sfxOf s l = true ↔ ∃ a, l = a ++ s := by
  simp only [sfxOf, pfxOf_iff]
  constructor
  · rintro ⟨t, ht⟩
    refine ⟨t.reverse, ?_⟩
    have := congrArg List.reverse ht
    simpa using this
  · rintro ⟨a, rfl⟩
    exact ⟨a.reverse, by simp⟩

theorem splitSlash_ne_nil : ∀ l : Str, splitSlash l ≠ [] := by
  intro l
  cases l with
  | nil => simp [splitSlash]
  | cons c cs =>
    simp only [splitSlash]
    split
    · simp
    · split <;> simp

theorem splitSlash_append_sep (a b : Str) :
    splitSlash (a ++ '/' :: b) = splitSlash a ++ splitSlash b := by
  induction a with
  | nil => simp [splitSlash]
  | cons c cs ih =>
    rw [List.cons_append]
    simp only [splitSlash]
    rw [ih]
    by_cases hc : c = '/'
    · subst hc; simp
    · rcases h : splitSlash cs with _ | ⟨s, ss⟩
      · exact absurd h (splitSlash_ne_nil cs)
      · simp [hc, h]

theorem joinSlash_splitSlash : ∀ l : Str, joinSlash (splitSlash l) = l := by
  intro l
  induction l with
  | nil => rfl
  | cons c cs ih =>
    simp only [splitSlash]
    split
    · rename_i hc
      subst hc
      rcases h : splitSlash cs with _ | ⟨s, ss⟩
      · exact absurd h (splitSlash_ne_nil cs)
      · rw [h] at ih
        simpa [joinSlash] using ih
    · rcases h : splitSlash cs with _ | ⟨s, ss⟩
      · exact absurd h (splitSlash_ne_nil cs)
      · rw [h] at ih
        cases ss with
        | nil => simpa [joinSlash] using ih
        | cons t ts => simpa [joinSlash] using ih

theorem splitSlash_no_slash (l : Str) (h : '/' ∉ l) : splitSlash l = [l] := by
  induction l with
  | nil => rfl
  | cons c cs ih =>
    simp only [List.mem_cons, not_or] at h
    simp only [splitSlash, if_neg (Ne.symm h.1), ih h.2]

theorem joinSlash_concat (es : List Str) (e : Str) :
    joinSlash (es ++ [e]) = if es = [] then e else joinSlash es ++ '/' :: e := by
  induction es with
  | nil => simp [joinSlash]
  | cons s ss ih =>
    cases ss with
    | nil => simp [joinSlash]
    | cons t ts =>
      rw [if_neg (by simp)] at ih ⊢
      show s ++ '/' :: joinSlash ((t :: ts) ++ [e]) = (s ++ '/' :: joinSlash (t :: ts)) ++ '/' :: e
      rw [ih]
      simp

theorem splitSlash_joinSlash (ds : List Str) (hne : ds ≠ [])
    (h : ∀ s ∈ ds, '/' ∉ s) : splitSlash (joinSlash ds) = ds := by
  induction ds with
  | nil => exact absurd rfl hne
  | cons s ss ih =>
    cases ss with
    | nil => simpa [joinSlash] using splitSlash_no_slash s (h s (by simp))
    | cons t ts =>
      have : joinSlash (s :: t :: ts) = s ++ '/' :: joinSlash (t :: ts) := rfl
      rw [this, splitSlash_append_sep, splitSlash_no_slash s (h s (by simp)),
        ih (by simp) (fun x hx => h x (by simp [hx]))]
      rfl

theorem dropWhile_ne_slash_eq_nil (l : Str) (h : '/' ∉ l) :
    l.dropWhile (fun c => !decide (c = '/')) = [] := by
  induction l with
  | nil => rfl
  | cons c cs ih =>
    simp only [List.mem_cons, not_or] at h
    simp [List.dropWhile, Ne.symm h.1, ih h.2]

theorem pyDirname_no_slash (p : Str) (h : '/' ∉ p) : pyDirname p = [] := by
  have h2 : p.reverse.dropWhile (fun c => !decide (c = '/')) = [] :=
    dropWhile_ne_slash_eq_nil _ (fun hm => h (List.mem_reverse.mp hm))
  simp only [pyDirname, ne_eq, decide_not]
  rw [h2]
  simp

theorem pyDirname_append (a b : Str) (hb : '/' ∉ b) (c : Char) (cs : Str)
    (ha : a.reverse = c :: cs) (hc : c ≠ '/') :
    pyDirname (a ++ '/' :: b) = a := by
  have h1 : b.reverse.dropWhile (fun x => !decide (x = '/')) = [] :=
    dropWhile_ne_slash_eq_nil _ (fun hm => hb (List.mem_reverse.mp hm))
  have hrev : (a ++ '/' :: b).reverse = b.reverse ++ '/' :: a.reverse := by simp
  have hdrop : (a ++ '/' :: b).reverse.dropWhile (fun x => !decide (x = '/'))
      = '/' :: a.reverse := by
    rw [hrev, List.dropWhile_append, h1]
    simp [List.dropWhile]
  have hnotall : (('/' :: a.reverse).all (fun x => decide (x = '/'))) = false := by
    rw [ha]; simp [hc]
  have ha2 : a = cs.reverse ++ [c] := by
    rw [← List.reverse_reverse a, ha]; simp
  simp only [pyDirname, ne_eq, decide_not]
  rw [hdrop]
  rw [if_neg (by simp)]
  rw [if_neg (by simp [hnotall])]
  simp only [List.dropWhile]
  rw [ha]
  simp [List.dropWhile, hc, ha2]

/-! ### Lemmas about the dict model -/

theorem dictGet?_set {κ α : Type} [DecidableEq κ]
    (m : List (κ × α)) (k k' : κ) (v : α) :
    dictGet? (dictSet m k v) k' = if k = k' then some v else dictGet? m k' := by
  induction m with
  | nil => simp [dictSet, dictGet?]
  | cons a t ih =>
    obtain ⟨x, y⟩ := a
    by_cases hxk : x = k
    · subst hxk
      by_cases hxk' : x = k'
      · simp [dictSet, dictGet?, hxk']
      · simp [dictSet, dictGet?, hxk']
    · by_cases hxk' : x = k'
      · subst hxk'
        have hkx : ¬ k = x := fun hh => hxk hh.symm
        simp [dictSet, dictGet?, hxk, hkx]
      · simp [dictSet, dictGet?, hxk, hxk', ih]

theorem dictGet?_set_self {κ α : Type} [DecidableEq κ]
    (m : List (κ × α)) (k : κ) (v : α) :
    dictGet? (dictSet m k v) k = some v := by
  simp [dictGet?_set]

theorem dictGet?_set_ne {κ α : Type} [DecidableEq κ]
    (m : List (κ × α)) (k k' : κ) (v : α) (h : k ≠ k') :
    dictGet? (dictSet m k v) k' = dictGet? m k' := by
  simp [dictGet?_set, h]

theorem dictHas_set {κ α : Type} [DecidableEq κ]
    (m : List (κ × α)) (k k' : κ) (v : α) :
    dictHas (dictSet m k v) k' = (decide (k = k') || dictHas m k') := by
  by_cases h : k = k'
  · simp [dictHas, dictGet?_set, h]
  · simp [dictHas, dictGet?_set, h]

example : minioKeep (lit "202505") (lit "A/202505/f.pdf") = true := by decide
example : minioKeep (lit "202505") (lit "A/x202505x/f.pdf") = false := by decide
example : minioKeep (lit "202505") (lit "A/2025055/f.pdf") = false := by decide
example : minioKeep (lit "202505") (lit "A/202505/") = false := by decide
example : extractDirectoryName (lit "核心网络部运维报告")
    (lit "核心网络部运维报告/A/202505/B/f.pdf") = lit "B" := by decide
example : specCategory (lit "核心网络部运维报告")
    (lit "核心网络部运维报告/A/202505/B/f.pdf") = lit "A" := by decide
example : extractDirectoryName (lit "核心网络部运维报告")
    (lit "核心网络部运维报告/监控中心运维报告/202505/f.pdf") = lit "监控中心运维报告" := by
  decide

/-! ### The merge engine's collapsing rule -/

theorem foldl_keep_filter (f g : String → Bool) (l : List String) :
    ∀ a : List String,
      l.foldl (fun acc p =>
        if f p then (if g p then acc ++ [p] else acc) else acc) a
        = a ++ l.filter (fun p => f p && g p) := by
  induction l with
  | nil => intro a; simp
  | cons p t ih =>
    intro a
    simp only [List.foldl, List.filter_cons]
    by_cases hf : f p = true
    · by_cases hg : g p = true
      · simp [hf, hg, ih]
      · simp [hf, hg, ih]
    · simp [hf, ih]

/-- Counterexample to C7 as stated: a two-element image sequence whose
second path does not exist on disk is bound as a single inline image, so
the collapsing does not depend only on the number of elements. -/
theorem processImageArray_two_elements_single :
    processImageArray
        ⟨fun p => p == "a.png", fun _ => true⟩ ["a.png", "b.png"]
      = .single "a.png"
    ∧ (["a.png", "b.png"] : List String).length > 1 := by
  exact ⟨rfl, by decide⟩

/-- C7 (amended): the collapsing rule of
`CoreTemplateMerger._process_image_array` depends on the number of
elements that survive conversion — paths that exist and whose inline
image is created — not on the raw element count: exactly one survivor is
bound as a single inline image, any other count as a list. -/
theorem processImageArray_collapses (env : MergeEnv)
    (imagePaths : List String) :
    processImageArray env imagePaths =
      (let survivors :=
        imagePaths.filter (fun p => env.fileOnDisk p && env.inlineOk p)
       if survivors.length = 1 then .single (survivors.getD 0 "")
       else .multiple survivors) := by
  unfold processImageArray
  cases imagePaths with
  | nil => simp
  | cons p t =>
    rw [if_neg (by simp)]
    rw [foldl_keep_filter env.fileOnDisk env.inlineOk (p :: t) []]
    simp

/-! ### Discovery maps have no empty-list values -/

theorem mem_dictSet {κ α : Type} [DecidableEq κ]
    (m : List (κ × α)) (k : κ) (v : α) (kv : κ × α)
    (h : kv ∈ dictSet m k v) : kv = (k, v) ∨ kv ∈ m := by
  induction m with
  | nil => simpa [dictSet] using h
  | cons a t ih =>
    obtain ⟨x, y⟩ := a
    by_cases hxk : x = k
    · rw [dictSet, if_pos hxk] at h
      rcases List.mem_cons.mp h with h1 | h1
      · exact .inl h1
      · exact .inr (List.mem_cons.mpr (.inr h1))
    · rw [dictSet, if_neg hxk] at h
      rcases List.mem_cons.mp h with h1 | h1
      · exact .inr (List.mem_cons.mpr (.inl h1))
      · rcases ih h1 with h2 | h2
        · exact .inl h2
        · exact .inr (List.mem_cons.mpr (.inr h2))

theorem mem_dictPush {κ α : Type} [DecidableEq κ]
    (m : List (κ × List α)) (k : κ) (v : α) (kv : κ × List α)
    (h : kv ∈ dictPush m k v) : kv.2 ≠ [] ∨ kv ∈ m := by
  unfold dictPush at h
  rcases hg : dictGet? m k with _ | l
  · rw [hg] at h
    rcases List.mem_append.mp h with h1 | h1
    · exact .inr h1
    · left
      have : kv = (k, [v]) := by simpa using h1
      simp [this]
  · rw [hg] at h
    rcases mem_dictSet _ _ _ _ h with h1 | h1
    · left; simp [h1]
    · exact .inr h1

theorem minioScan_fold_nonempty (basePfx targetDate : Str) (env : MinioEnv)
    (objects : List Str) :
    ∀ acc : List (Str × List Str), (∀ kv ∈ acc, kv.2 ≠ []) →
      ∀ kv ∈ objects.foldl
        (fun fileDict obj =>
          if minioKeep targetDate obj then
            match env.download obj with
            | some localPath =>
                dictPush fileDict (extractDirectoryName basePfx obj) localPath
            | none => fileDict
          else fileDict) acc, kv.2 ≠ [] := by
  induction objects with
  | nil => intro acc hacc kv hkv; exact hacc kv hkv
  | cons o t ih =>
    intro acc hacc kv hkv
    refine ih _ ?_ kv hkv
    intro kv2 hkv2
    dsimp only at hkv2
    by_cases hk : minioKeep targetDate o = true
    · rw [if_pos hk] at hkv2
      rcases hd : env.download o with _ | lp
      · rw [hd] at hkv2; exact hacc kv2 hkv2
      · rw [hd] at hkv2
        rcases mem_dictPush _ _ _ _ hkv2 with h1 | h1
        · exact h1
        · exact hacc kv2 h1
    · rw [if_neg hk] at hkv2
      exact hacc kv2 hkv2

theorem fileScannerScan_fold_nonempty (basePath : Str)
    (listing : List (Str × Bool × List LocalFile)) :
    ∀ acc : List (Str × List Str), (∀ kv ∈ acc, kv.2 ≠ []) →
      ∀ kv ∈ listing.foldl
        (fun fileDict item =>
          if item.2.1 then
            let files := scanDirectory (basePath ++ '/' :: item.1) item.2.2
            if files ≠ [] then dictSet fileDict item.1 files else fileDict
          else fileDict) acc, kv.2 ≠ [] := by
  induction listing with
  | nil => intro acc hacc kv hkv; exact hacc kv hkv
  | cons item t ih =>
    intro acc hacc kv hkv
    refine ih _ ?_ kv hkv
    intro kv2 hkv2
    dsimp only at hkv2
    by_cases hdir : item.2.1 = true
    · rw [if_pos hdir] at hkv2
      by_cases hne : scanDirectory (basePath ++ '/' :: item.1) item.2.2 ≠ []
      · rw [if_pos hne] at hkv2
        rcases mem_dictSet _ _ _ _ hkv2 with h1 | h1
        · rw [h1]; exact hne
        · exact hacc kv2 h1
      · rw [if_neg hne] at hkv2
        exact hacc kv2 hkv2
    · rw [if_neg hdir] at hkv2
      exact hacc kv2 hkv2

/-- C8: every value in the maps returned by source discovery —
`FileScanner.scan_files` and `MinioFileScanner.scan_files` — is a
non-empty list: a category key is only created together with its first
file. -/
theorem scan_values_nonempty (basePath : Str) (envL : LocalEnv)
    (basePfx targetDate : Str) (envM : MinioEnv) :
    (∀ kv ∈ fileScannerScan basePath envL, kv.2 ≠ ([] : List Str))
    ∧ (∀ kv ∈ minioScan basePfx targetDate envM, kv.2 ≠ ([] : List Str)) := by
  constructor
  · intro kv hkv
    unfold fileScannerScan at hkv
    by_cases hb : (!envL.baseExists) = true
    · rw [if_pos hb] at hkv; simp at hkv
    · rw [if_neg hb] at hkv
      exact fileScannerScan_fold_nonempty basePath envL.listing []
        (by simp) kv hkv
  · intro kv hkv
    unfold minioScan at hkv
    by_cases hb : (!envM.bucketExists) = true
    · rw [if_pos hb] at hkv; simp at hkv
    · rw [if_neg hb] at hkv
      exact minioScan_fold_nonempty basePfx targetDate envM envM.objects []
        (by simp) kv hkv

theorem scan_values_nonempty_witness :
    ((lit "A", [lit "base/A/f.docx"])
        ∈ fileScannerScan (lit "base")
            ⟨true, [(lit "A", true, [⟨lit "f.docx", true⟩])]⟩)
    ∧ (lit "A", [lit "base/A/f.docx"]).2 ≠ ([] : List Str) :=
  ⟨by decide,
   (scan_values_nonempty (lit "base")
      ⟨true, [(lit "A", true, [⟨lit "f.docx", true⟩])]⟩ [] []
      ⟨true, [], fun _ => none⟩).1 _ (by decide)⟩

/-! ### Date filtering and category extraction of remote discovery -/

theorem joinSlash_append (ss ts : List Str) (h1 : ss ≠ []) (h2 : ts ≠ []) :
    joinSlash (ss ++ ts) = joinSlash ss ++ '/' :: joinSlash ts := by
  induction ss with
  | nil => exact absurd rfl h1
  | cons s ss2 ih =>
    cases ss2 with
    | nil =>
      cases ts with
      | nil => exact absurd rfl h2
      | cons u us => rfl
    | cons s2 ss3 =>
      have : (s :: s2 :: ss3) ++ ts = s :: ((s2 :: ss3) ++ ts) := rfl
      rw [this]
      have hcons : ∃ u us, (s2 :: ss3) ++ ts = u :: us := ⟨s2, ss3 ++ ts, rfl⟩
      obtain ⟨u, us, hu⟩ := hcons
      show s ++ '/' :: joinSlash ((s2 :: ss3) ++ ts) = _
      rw [ih (by simp)]
      show s ++ '/' :: (joinSlash (s2 :: ss3) ++ '/' :: joinSlash ts)
          = (s ++ '/' :: joinSlash (s2 :: ss3)) ++ '/' :: joinSlash ts
      simp

theorem subOf_seg_iff (t k : Str) (ht : '/' ∉ t) :
    subOf ('/' :: t ++ ['/']) k = true ↔
      ∃ ss ts, ss ≠ [] ∧ ts ≠ [] ∧ splitSlash k = ss ++ t :: ts := by
  rw [subOf_iff]
  constructor
  · rintro ⟨a, b, hab⟩
    have hk : k = a ++ '/' :: (t ++ '/' :: b) := by
      simpa [List.append_assoc] using hab
    refine ⟨splitSlash a, splitSlash b, splitSlash_ne_nil a,
      splitSlash_ne_nil b, ?_⟩
    rw [hk, splitSlash_append_sep, splitSlash_append_sep,
      splitSlash_no_slash t ht]
    simp
  · rintro ⟨ss, ts, h1, h2, hsplit⟩
    refine ⟨joinSlash ss, joinSlash ts, ?_⟩
    have hk : k = joinSlash (ss ++ t :: ts) := by
      rw [← hsplit, joinSlash_splitSlash]
    rw [hk, joinSlash_append ss (t :: ts) h1 (by simp)]
    cases ts with
    | nil => exact absurd rfl h2
    | cons u us =>
      show joinSlash ss ++ '/' :: (t ++ '/' :: joinSlash (u :: us)) = _
      simp [List.append_assoc]

theorem sfxOf_seg_iff (t k : Str) (ht : '/' ∉ t) :
    sfxOf ('/' :: t ++ ['/']) k = true ↔
      ∃ ss, ss ≠ [] ∧ splitSlash k = ss ++ [t, []] := by
  rw [sfxOf_iff]
  constructor
  · rintro ⟨a, ha⟩
    have hk : k = a ++ '/' :: (t ++ '/' :: []) := by
      simpa [List.append_assoc] using ha
    refine ⟨splitSlash a, splitSlash_ne_nil a, ?_⟩
    rw [hk, splitSlash_append_sep, splitSlash_append_sep,
      splitSlash_no_slash t ht]
    rfl
  · rintro ⟨ss, h1, hsplit⟩
    refine ⟨joinSlash ss, ?_⟩
    have hk : k = joinSlash (ss ++ [t, []]) := by
      rw [← hsplit, joinSlash_splitSlash]
    rw [hk, joinSlash_append ss [t, []] h1 (by simp)]
    show joinSlash ss ++ '/' :: (t ++ '/' :: []) = _
    simp [List.append_assoc]

/-- Counterexample to C4 as stated: the key `"202505/f.pdf"` has a
directory segment exactly equal to the period, is not the directory
marker, is no lock file and has a supported extension — yet remote
discovery rejects it, because the filter looks for the substring
`"/202505/"` and the leading date segment has no preceding slash. -/
theorem minioDateKeep_first_segment :
    (lit "202505") ∈ (splitSlash (lit "202505/f.pdf")).dropLast
    ∧ sfxOf (lit "202505" ++ ['/']) (lit "202505/f.pdf") = false
    ∧ pfxOf (lit "~$") (pyBasename (lit "202505/f.pdf")) = false
    ∧ supportedExtensions.contains (lowerStr (pyExt (lit "202505/f.pdf"))) = true
    ∧ minioDateKeep (lit "202505") (lit "202505/f.pdf") = false
    ∧ minioKeep (lit "202505") (lit "202505/f.pdf") = false := by
  decide

/-- C4 (amended): the date filter of `MinioFileScanner.scan_files` keeps
a key iff the period occurs as a directory segment that is neither the
first nor the last segment of the key — i.e. `/YYYYMM/` occurs inside
the key — and the key does not end at the date-segment directory marker.
Segment matching is exact (an `x202505x` or `2025055` segment never
matches), but a date directory at the very start of the key is not
matched either. -/
theorem minioDateKeep_iff (t k : Str) (ht : '/' ∉ t) :
    minioDateKeep t k = true ↔
      ((∃ ss ts, ss ≠ [] ∧ ts ≠ [] ∧ splitSlash k = ss ++ t :: ts)
        ∧ ∀ ss, ss ≠ [] → splitSlash k ≠ ss ++ [t, []]) := by
  unfold minioDateKeep
  rw [Bool.and_eq_true, subOf_seg_iff t k ht]
  constructor
  · rintro ⟨hsub, hnot⟩
    refine ⟨hsub, ?_⟩
    intro ss hss heq
    have : sfxOf ('/' :: t ++ ['/']) k = true :=
      (sfxOf_seg_iff t k ht).mpr ⟨ss, hss, heq⟩
    rw [this] at hnot
    exact absurd hnot (by simp)
  · rintro ⟨hsub, hno⟩
    refine ⟨hsub, ?_⟩
    rw [Bool.not_eq_true']
    by_contra hx
    have hx2 : sfxOf ('/' :: t ++ ['/']) k = true := by
      revert hx
      cases sfxOf ('/' :: t ++ ['/']) k <;> simp
    obtain ⟨ss, hss, heq⟩ := (sfxOf_seg_iff t k ht).mp hx2
    exact hno ss hss heq

theorem minioDateKeep_iff_witness :
    ('/' ∉ lit "202505")
    ∧ (minioDateKeep (lit "202505") (lit "A/202505/f.pdf") = true ↔
        ((∃ ss ts, ss ≠ [] ∧ ts ≠ [] ∧
            splitSlash (lit "A/202505/f.pdf") = ss ++ (lit "202505") :: ts)
          ∧ ∀ ss, ss ≠ [] →
              splitSlash (lit "A/202505/f.pdf") ≠ ss ++ [lit "202505", []])) :=
  ⟨by decide, minioDateKeep_iff (lit "202505") (lit "A/202505/f.pdf") (by decide)⟩

/-- Counterexample to C3 as stated: the key
`核心网络部运维报告/A/202505/B/f.pdf` is selected by remote discovery for
period 202505, the segment immediately preceding the six-digit date
segment is `A`, but `_extract_directory_name` assigns category `B` (the
immediate parent), because it only inspects the last directory
segment. -/
theorem extractDirectoryName_not_preceding :
    minioKeep (lit "202505") (lit "核心网络部运维报告/A/202505/B/f.pdf") = true
    ∧ specCategory (lit "核心网络部运维报告")
        (lit "核心网络部运维报告/A/202505/B/f.pdf") = lit "A"
    ∧ extractDirectoryName (lit "核心网络部运维报告")
        (lit "核心网络部运维报告/A/202505/B/f.pdf") = lit "B"
    ∧ lit "A" ≠ lit "B" := by
  decide

/-- C3 (amended): for a key `pfx/<dirs>/<file>` with clean segments, the
category `_extract_directory_name` assigns is determined by the immediate
parent directory: when the immediate parent is itself a six-digit numeric
segment and a preceding segment exists, the category is that preceding
segment; otherwise it is the immediate parent; and a key with no parent
at all gets the sentinel root category.  (A six-digit date segment
elsewhere in the path is ignored.) -/
theorem extractDirectoryName_parent (pfx fname : Str) (ds : List Str)
    (hp : pfx ≠ []) (hf : '/' ∉ fname)
    (hds : ∀ s ∈ ds, '/' ∉ s ∧ s ≠ []) :
    extractDirectoryName pfx (pfx ++ '/' :: joinSlash (ds ++ [fname])) =
      match ds.reverse with
      | [] => lit "根目录"
      | [d] => d
      | d :: e :: _ => if isDigit6 d then e else d := by
  have hstrip : pfxOf (pfx ++ ['/'])
      (pfx ++ '/' :: joinSlash (ds ++ [fname])) = true :=
    (pfxOf_iff _ _).mpr ⟨joinSlash (ds ++ [fname]), by simp⟩
  have hdrop : (pfx ++ '/' :: joinSlash (ds ++ [fname])).drop (pfx.length + 1)
      = joinSlash (ds ++ [fname]) := by
    have h1 : pfx ++ '/' :: joinSlash (ds ++ [fname])
        = (pfx ++ ['/']) ++ joinSlash (ds ++ [fname]) := by simp
    rw [h1]
    simp
  have hrelpath : stripBasePfx pfx (pfx ++ '/' :: joinSlash (ds ++ [fname]))
      = joinSlash (ds ++ [fname]) := by
    unfold stripBasePfx
    rw [if_pos (by simp [hp, hstrip])]
    exact hdrop
  simp only [extractDirectoryName]
  rw [hrelpath]
  rcases List.eq_nil_or_concat ds with rfl | ⟨es, e, rfl⟩
  · have hfn : joinSlash ([] ++ [fname]) = fname := rfl
    rw [hfn, pyDirname_no_slash fname hf, if_pos rfl]
    rfl
  · simp only [List.concat_eq_append] at hds ⊢
    have he := hds e (by simp)
    obtain ⟨c, cs, hcrev⟩ : ∃ c cs, e.reverse = c :: cs := by
      rcases hrev : e.reverse with _ | ⟨c, cs⟩
      · have : e = [] := by simpa using congrArg List.reverse hrev
        exact absurd this he.2
      · exact ⟨c, cs, rfl⟩
    have hc : c ≠ '/' := by
      have hmem : c ∈ e := List.mem_reverse.mp (by rw [hcrev]; simp)
      intro hcc
      exact he.1 (hcc ▸ hmem)
    have hrel : joinSlash ((es ++ [e]) ++ [fname])
        = joinSlash (es ++ [e]) ++ '/' :: fname := by
      rw [joinSlash_concat (es ++ [e]) fname, if_neg (by simp)]
    obtain ⟨cs2, harev⟩ :
        ∃ cs2, (joinSlash (es ++ [e])).reverse = c :: cs2 := by
      rw [joinSlash_concat es e]
      by_cases hes : es = []
      · rw [if_pos hes]
        exact ⟨cs, hcrev⟩
      · rw [if_neg hes]
        refine ⟨cs ++ '/' :: (joinSlash es).reverse, ?_⟩
        rw [List.reverse_append, List.reverse_cons, hcrev]
        simp
    have hdir : pyDirname (joinSlash (es ++ [e]) ++ '/' :: fname)
        = joinSlash (es ++ [e]) :=
      pyDirname_append _ fname hf c cs2 harev hc
    rw [hrel, hdir]
    have hane : joinSlash (es ++ [e]) ≠ [] := by
      intro h0
      rw [h0] at harev
      simp at harev
    rw [if_neg hane]
    have hsplit : splitSlash (joinSlash (es ++ [e])) = es ++ [e] :=
      splitSlash_joinSlash (es ++ [e]) (by simp) (fun s hs => (hds s hs).1)
    rw [hsplit]
    rcases List.eq_nil_or_concat es with rfl | ⟨es2, e2, rfl⟩
    · rw [List.nil_append]
      rw [if_neg (by simp)]
      simp [List.getLastD]
    · simp only [List.concat_eq_append]
      have hlast : (((es2 ++ [e2]) ++ [e]).getLastD []) = e := by
        simp
      have hgetd : ((es2 ++ [e2]) ++ [e]).getD es2.length [] = e2 := by
        rw [List.append_assoc]
        rw [List.getD_append_right es2 ([e2] ++ [e]) [] es2.length
          (le_refl es2.length)]
        simp
      have hrevds : ((es2 ++ [e2]) ++ [e]).reverse = e :: e2 :: es2.reverse := by
        simp
      by_cases hd6 : isDigit6 e = true
      · rw [if_pos (by simp [hlast, hd6])]
        have hidx : ((es2 ++ [e2]) ++ [e]).length - 2 = es2.length := by
          simp
        rw [hidx, hgetd, hrevds]
        simp [hd6]
      · rw [if_neg (by simp [hlast, hd6])]
        rw [hlast, hrevds]
        simp [hd6]

theorem extractDirectoryName_parent_witness :
    (lit "核心网络部运维报告" ≠ ([] : Str))
    ∧ ('/' ∉ lit "f.pdf")
    ∧ (∀ s ∈ [lit "监控中心运维报告", lit "202505"], '/' ∉ s ∧ s ≠ [])
    ∧ extractDirectoryName (lit "核心网络部运维报告")
        (lit "核心网络部运维报告" ++ '/'
          :: joinSlash ([lit "监控中心运维报告", lit "202505"] ++ [lit "f.pdf"]))
        = lit "监控中心运维报告" := by
  refine ⟨by decide, by decide, by decide, ?_⟩
  have h := extractDirectoryName_parent (lit "核心网络部运维报告") (lit "f.pdf")
    [lit "监控中心运维报告", lit "202505"] (by decide) (by decide) (by decide)
  simpa using h

/-! ### Whitespace cropping -/

theorem foldl_max_lt (n : Nat) :
    ∀ (l : List Nat) (x : Nat), x < n → (∀ y ∈ l, y < n) →
      l.foldl Nat.max x < n := by
  intro l
  induction l with
  | nil => intro x hx _; simpa using hx
  | cons y t ih =>
    intro x hx h
    show t.foldl Nat.max (Nat.max x y) < n
    exact ih _ (Nat.max_lt.mpr ⟨hx, h y (by simp)⟩)
      (fun z hz => h z (by simp [hz]))

theorem maximumD_lt (n : Nat) (l : List Nat) (hne : l ≠ [])
    (h : ∀ y ∈ l, y < n) : maximumD l < n := by
  cases l with
  | nil => exact absurd rfl hne
  | cons x xs =>
    exact foldl_max_lt n xs x (h x (by simp)) (fun z hz => h z (by simp [hz]))

theorem isContent_white (p : Pix) (h : p = (255, 255, 255)) :
    isContent p = false := by
  subst h
  rfl

theorem cropBlank_all_white (img : Img)
    (h : ∀ row ∈ img, ∀ p ∈ row, p = (255, 255, 255)) :
    cropBlank img = img := by
  have hps : contentPositions isContent img = [] := by
    unfold contentPositions
    rw [List.flatten_eq_nil_iff]
    intro l hl
    rw [List.mem_map] at hl
    obtain ⟨r, hr, rfl⟩ := hl
    rw [List.filterMap_eq_nil_iff]
    intro cp hcp
    have hrow : r.2 ∈ img := by
      have h1 := List.mem_enum_iff_getElem?.mp hr
      exact List.getElem?_mem h1
    have hpix : cp.2 ∈ r.2 := by
      have h1 := List.mem_enum_iff_getElem?.mp hcp
      exact List.getElem?_mem h1
    rw [isContent_white cp.2 (h r.2 hrow cp.2 hpix)]
    rfl
  unfold cropBlank getbboxBy
  rw [hps]
  rfl

theorem cropBox_dims (img : Img) (l u r d : Nat) :
    (cropBox img l u r d).length ≤ d
    ∧ ∀ row ∈ cropBox img l u r d, row.length ≤ r := by
  constructor
  · unfold cropBox
    rw [List.length_map, List.length_take]
    omega
  · intro row hrow
    unfold cropBox at hrow
    rw [List.mem_map] at hrow
    obtain ⟨row0, _, rfl⟩ := hrow
    rw [List.length_take]
    omega

/-- C6 (amended): `crop_blank` computes the bounding box of the pixels
that differ from pure white — the `threshold` parameter is unused, so a
near-white pixel still counts as content — and crops to it.  A page all
of whose pixels are exactly white is returned uncropped, and a page whose
non-white pixels all lie in the top-left quadrant yields an image bounded
by that quadrant. -/
theorem cropBlank_spec (img : Img) (w : Nat)
    (_hw : ∀ row ∈ img, row.length = w) :
    ((∀ row ∈ img, ∀ p ∈ row, p = (255, 255, 255)) → cropBlank img = img)
    ∧ ((contentPositions isContent img ≠ []) →
        (∀ pos ∈ contentPositions isContent img,
          pos.1 < w / 2 ∧ pos.2 < img.length / 2) →
        (cropBlank img).length ≤ img.length / 2
          ∧ ∀ row ∈ cropBlank img, row.length ≤ w / 2) := by
  refine ⟨cropBlank_all_white img, ?_⟩
  intro hne hquad
  have hx : maximumD ((contentPositions isContent img).map
      (fun q => q.1)) < w / 2 := by
    refine maximumD_lt _ _ (by simpa using hne) ?_
    intro y hy
    rw [List.mem_map] at hy
    obtain ⟨pos, hpos, rfl⟩ := hy
    exact (hquad pos hpos).1
  have hy : maximumD ((contentPositions isContent img).map
      (fun q => q.2)) < img.length / 2 := by
    refine maximumD_lt _ _ (by simpa using hne) ?_
    intro y hy
    rw [List.mem_map] at hy
    obtain ⟨pos, hpos, rfl⟩ := hy
    exact (hquad pos hpos).2
  have hbox : cropBlank img = cropBox img
      (minimumD ((contentPositions isContent img).map (fun q => q.1)))
      (minimumD ((contentPositions isContent img).map (fun q => q.2)))
      (maximumD ((contentPositions isContent img).map (fun q => q.1)) + 1)
      (maximumD ((contentPositions isContent img).map (fun q => q.2)) + 1) := by
    unfold cropBlank getbboxBy
    rw [if_neg hne]
  rw [hbox]
  have hdims := cropBox_dims img
    (minimumD ((contentPositions isContent img).map (fun q => q.1)))
    (minimumD ((contentPositions isContent img).map (fun q => q.2)))
    (maximumD ((contentPositions isContent img).map (fun q => q.1)) + 1)
    (maximumD ((contentPositions isContent img).map (fun q => q.2)) + 1)
  constructor
  · exact le_trans hdims.1 (by omega)
  · intro row hrow
    exact le_trans (hdims.2 row hrow) (by omega)

/-- Counterexample to C6 as stated: a near-white gray pixel (250) is
below no threshold in the code — `crop_blank` treats it as content and
crops to it, while the near-white-threshold crop described by the spec
would leave the page uncropped. -/
theorem cropBlank_not_threshold :
    cropBlank [[(250, 250, 250), (255, 255, 255)]] = [[(250, 250, 250)]]
    ∧ cropBlankNearWhite [[(250, 250, 250), (255, 255, 255)]]
        = [[(250, 250, 250), (255, 255, 255)]]
    ∧ ([[(250, 250, 250)]] : Img) ≠ [[(250, 250, 250), (255, 255, 255)]] := by
  refine ⟨by decide, by decide, by decide⟩

theorem cropBlank_spec_witness :
    (∀ row ∈ ([[(0, 0, 0), (255, 255, 255)],
        [(255, 255, 255), (255, 255, 255)]] : Img), row.length = 2)
    ∧ (((∀ row ∈ ([[(0, 0, 0), (255, 255, 255)],
            [(255, 255, 255), (255, 255, 255)]] : Img),
          ∀ p ∈ row, p = (255, 255, 255)) →
        cropBlank [[(0, 0, 0), (255, 255, 255)],
            [(255, 255, 255), (255, 255, 255)]]
          = [[(0, 0, 0), (255, 255, 255)], [(255, 255, 255), (255, 255, 255)]])
      ∧ ((contentPositions isContent [[(0, 0, 0), (255, 255, 255)],
            [(255, 255, 255), (255, 255, 255)]] ≠ []) →
          (∀ pos ∈ contentPositions isContent [[(0, 0, 0), (255, 255, 255)],
              [(255, 255, 255), (255, 255, 255)]],
            pos.1 < 2 / 2 ∧ pos.2 < ([[(0, 0, 0), (255, 255, 255)],
              [(255, 255, 255), (255, 255, 255)]] : Img).length / 2) →
          (cropBlank [[(0, 0, 0), (255, 255, 255)],
              [(255, 255, 255), (255, 255, 255)]]).length
              ≤ ([[(0, 0, 0), (255, 255, 255)],
                  [(255, 255, 255), (255, 255, 255)]] : Img).length / 2
            ∧ ∀ row ∈ cropBlank [[(0, 0, 0), (255, 255, 255)],
                [(255, 255, 255), (255, 255, 255)]], row.length ≤ 2 / 2)) :=
  ⟨by decide,
   cropBlank_spec [[(0, 0, 0), (255, 255, 255)],
     [(255, 255, 255), (255, 255, 255)]] 2 (by decide)⟩

/-! ### Totality of the document extractor -/

theorem parsePdfWithApi_ok_shape (env : PdfEnv) (path : String) (ext : Bool)
    (r : ParseResult) (h : parsePdfWithApi env path ext = .ok r) :
    (r.success = false ∧ r.error.isSome) ∨ (r.success = true ∧ r.error = none) := by
  unfold parsePdfWithApi at h
  split at h
  · simp at h
  · split at h
    · have hr := Except.ok.inj h
      rw [← hr]
      left
      exact ⟨rfl, rfl⟩
    · split at h
      · simp at h
      · have hr := Except.ok.inj h
        rw [← hr]
        right
        exact ⟨rfl, rfl⟩

theorem parsePdfAsImages_ok_shape (env : PdfEnv) (path : String)
    (r : ParseResult) (h : parsePdfAsImages env path = .ok r) :
    r.success = true ∧ r.error = none := by
  unfold parsePdfAsImages at h
  split at h
  · simp at h
  · split at h
    · simp at h
    · split at h
      · simp at h
      · have hr := Except.ok.inj h
        rw [← hr]
        exact ⟨rfl, rfl⟩

/-- C5: `PDFParser.parse_pdf` raises only for a missing source file; on
every other input it returns a result dict, unsuccessful results carry an
error description, and each failure mode — network error, non-2xx
response, missing `markdown` field, empty content, unavailable rendering
backend, zero rendered pages — yields `success = false` with the
corresponding message. -/
theorem parsePdf_total (p : PdfParser) (env : PdfEnv) (pdfPath : String)
    (extractImages : Bool) :
    (env.fileOnDisk = false →
      parsePdf p env pdfPath extractImages
        = .error ("PDF文件不存在: " ++ pdfPath))
    ∧ (env.fileOnDisk = true →
        ∃ r, parsePdf p env pdfPath extractImages = .ok r
          ∧ (r.success = false → r.error.isSome)
          ∧ (r.success = true → r.error = none))
    ∧ (env.fileOnDisk = true → p.parseMode = "api" →
        ∀ e, (env.apiResponse = .requestError e ∨ env.apiResponse = .badStatus e) →
          parsePdf p env pdfPath extractImages
            = .ok { success := false, markdown := "", images := [],
                    imagePaths := [], error := some ("API请求失败: " ++ e),
                    parseMode := some p.parseMode })
    ∧ (env.fileOnDisk = true → p.parseMode = "api" →
        env.apiResponse = .missingMarkdown →
          parsePdf p env pdfPath extractImages
            = .ok { success := false, markdown := "", images := [],
                    imagePaths := [],
                    error := some "解析API响应失败: API响应中缺少markdown字段",
                    parseMode := some p.parseMode })
    ∧ (env.fileOnDisk = true → p.parseMode = "api" →
        env.apiResponse = .ok "" →
          parsePdf p env pdfPath extractImages
            = .ok { success := false, markdown := "", images := [],
                    imagePaths := [], error := some "未获取到解析内容",
                    parseMode := none })
    ∧ (env.fileOnDisk = true → p.parseMode = "image" →
        env.pdf2imageAvailable = false →
          parsePdf p env pdfPath extractImages
            = .ok { success := false, markdown := "", images := [],
                    imagePaths := [],
                    error := some "PDF转图片模式需要安装pdf2image和Pillow库: pip install pdf2image pillow",
                    parseMode := some p.parseMode })
    ∧ (env.fileOnDisk = true → p.parseMode = "image" →
        env.pdf2imageAvailable = true → env.convertPages = .ok 0 →
          parsePdf p env pdfPath extractImages
            = .ok { success := false, markdown := "", images := [],
                    imagePaths := [], error := some "PDF转图片结果为空",
                    parseMode := some p.parseMode }) := by
  refine ⟨?_, ?_, ?_, ?_, ?_, ?_, ?_⟩
  · intro h
    unfold parsePdf
    rw [h]
    rfl
  · intro h
    unfold parsePdf
    rw [h]
    simp only [Bool.not_true, Bool.false_eq_true, if_false]
    by_cases hapi : p.parseMode = "api"
    · rw [if_pos hapi]
      rcases hb : parsePdfWithApi env pdfPath extractImages with e | r0
      · exact ⟨_, rfl, fun _ => rfl, fun hs => by simp at hs⟩
      · refine ⟨r0, rfl, ?_, ?_⟩
        · intro hs
          rcases parsePdfWithApi_ok_shape env pdfPath extractImages r0 hb with
            ⟨-, h2⟩ | ⟨h1, -⟩
          · exact h2
          · rw [h1] at hs; simp at hs
        · intro hs
          rcases parsePdfWithApi_ok_shape env pdfPath extractImages r0 hb with
            ⟨h1, -⟩ | ⟨-, h2⟩
          · rw [h1] at hs; simp at hs
          · exact h2
    · rw [if_neg hapi]
      by_cases himg : p.parseMode = "image"
      · rw [if_pos himg]
        rcases hb : parsePdfAsImages env pdfPath with e | r0
        · exact ⟨_, rfl, fun _ => rfl, fun hs => by simp at hs⟩
        · obtain ⟨h1, h2⟩ := parsePdfAsImages_ok_shape env pdfPath r0 hb
          exact ⟨r0, rfl, fun hs => by rw [h1] at hs; simp at hs, fun _ => h2⟩
      · rw [if_neg himg]
        exact ⟨_, rfl, fun _ => rfl, fun hs => by simp at hs⟩
  · intro h hapi e hresp
    unfold parsePdf
    rw [h]
    simp only [Bool.not_true, Bool.false_eq_true, if_false]
    rw [if_pos hapi]
    unfold parsePdfWithApi
    rcases hresp with hresp | hresp <;> rw [hresp] <;> rfl
  · intro h hapi hresp
    unfold parsePdf
    rw [h]
    simp only [Bool.not_true, Bool.false_eq_true, if_false]
    rw [if_pos hapi]
    unfold parsePdfWithApi
    rw [hresp]
    rfl
  · intro h hapi hresp
    unfold parsePdf
    rw [h]
    simp only [Bool.not_true, Bool.false_eq_true, if_false]
    rw [if_pos hapi]
    unfold parsePdfWithApi
    rw [hresp]
    rfl
  · intro h himg hav
    unfold parsePdf
    rw [h]
    simp only [Bool.not_true, Bool.false_eq_true, if_false]
    rw [if_neg (by rw [himg]; decide), if_pos himg]
    unfold parsePdfAsImages
    rw [hav]
    rfl
  · intro h himg hav hconv
    unfold parsePdf
    rw [h]
    simp only [Bool.not_true, Bool.false_eq_true, if_false]
    rw [if_neg (by rw [himg]; decide), if_pos himg]
    unfold parsePdfAsImages
    rw [hav, hconv]
    rfl

theorem parsePdf_total_witness :
    ((⟨true, .ok "hello", fun md => Except.ok ([], md), true, .ok 1,
        "/out"⟩ : PdfEnv).fileOnDisk = true)
    ∧ ∃ r, parsePdf (pdfParserInit "u" "api" 200)
        ⟨true, .ok "hello", fun md => Except.ok ([], md), true, .ok 1, "/out"⟩
        "a.pdf" true = .ok r
        ∧ (r.success = false → r.error.isSome)
        ∧ (r.success = true → r.error = none) :=
  ⟨rfl,
   (parsePdf_total (pdfParserInit "u" "api" 200)
     ⟨true, .ok "hello", fun md => Except.ok ([], md), true, .ok 1, "/out"⟩
     "a.pdf" true).2.1 rfl⟩

/-- C9: any `parse_mode` other than `api`/`image` (compared after
lower-casing) is silently replaced by `api` in `PDFParser.__init__`, and
`parse_pdf` on such a parser behaves exactly as in api mode. -/
theorem pdfParserInit_fallback (url mode : String) (dpi : Nat)
    (h : strLower mode ≠ "api" ∧ strLower mode ≠ "image") :
    (pdfParserInit url mode dpi).parseMode = "api"
    ∧ ∀ (env : PdfEnv) (path : String) (ext : Bool),
        parsePdf (pdfParserInit url mode dpi) env path ext
          = parsePdf (pdfParserInit url "api" dpi) env path ext := by
  have hm : (pdfParserInit url mode dpi).parseMode = "api" := by
    unfold pdfParserInit
    simp only
    rw [if_pos ?_]
    rintro (h1 | h2)
    · exact h.1 h1
    · exact h.2 h2
  refine ⟨hm, ?_⟩
  intro env path ext
  unfold parsePdf
  rw [hm]
  have hm2 : (pdfParserInit url "api" dpi).parseMode = "api" := rfl
  rw [hm2]

theorem pdfParserInit_fallback_witness :
    (strLower "xml" ≠ "api" ∧ strLower "xml" ≠ "image")
    ∧ ((pdfParserInit "u" "xml" 200).parseMode = "api"
      ∧ ∀ (env : PdfEnv) (path : String) (ext : Bool),
          parsePdf (pdfParserInit "u" "xml" 200) env path ext
            = parsePdf (pdfParserInit "u" "api" 200) env path ext) :=
  ⟨⟨by decide, by decide⟩,
   pdfParserInit_fallback "u" "xml" 200 ⟨by decide, by decide⟩⟩

/-! ### The variable binder: initialisation and the requested key set -/

theorem dictGet?_initRequested (l : List String) (k : String) :
    dictGet? (initRequested l) k
      = if k ∈ l then some (initValue k) else none := by
  have hgen : ∀ (l : List String) (m0 : VarMap),
      dictGet? (l.foldl (fun m k' => dictSet m k' (initValue k')) m0) k
        = if k ∈ l then some (initValue k) else dictGet? m0 k := by
    intro l
    induction l with
    | nil => intro m0; simp
    | cons a t ih =>
      intro m0
      rw [List.foldl_cons, ih]
      by_cases hkt : k ∈ t
      · simp [hkt]
      · by_cases hka : k = a
        · subst hka
          simp [hkt, dictGet?_set_self]
        · simp [hkt, hka, dictGet?_set_ne _ _ _ _ (fun h => hka h.symm)]
  have h0 : dictGet? ([] : VarMap) k = none := rfl
  rw [initRequested, hgen l [], h0]

theorem processAllFiles_nofiles (l : List String) (d : String)
    (now : RunDate) (env : ProcEnv) (hl : l ≠ []) :
    processAllFiles (some l) (some d) now [] env
      = .ok (dictSet (dictSet
          (if "report_date" ∈ l
            then dictSet (initRequested l) "report_date" (.str now.reportDate)
            else initRequested l)
          "year" (.str (if trimStr d = "" then now.lastMonthYear
            else takeStr (trimStr d) 4)))
          "month" (.str (if trimStr d = "" then now.lastMonthMonth
            else dropStr (trimStr d) 4))) := by
  have hhas : dictHas (initRequested l) "report_date"
      = decide ("report_date" ∈ l) := by
    rw [dictHas, dictGet?_initRequested]
    by_cases hrd : "report_date" ∈ l <;> simp [hrd]
  simp only [processAllFiles, foldDirs]
  rw [if_pos hl, hhas]
  by_cases hrd : "report_date" ∈ l <;> by_cases htrim : trimStr d = "" <;>
    simp [hrd, htrim]

/-! #### Keys are never deleted, and only unguarded slots can be added -/

theorem dictHas_set_mono {κ α : Type} [DecidableEq κ]
    (m : List (κ × α)) (k k' : κ) (v : α) (h : dictHas m k' = true) :
    dictHas (dictSet m k v) k' = true := by
  rw [dictHas_set, h]
  simp

theorem dictHas_set_cases {κ α : Type} [DecidableEq κ]
    (m : List (κ × α)) (k k' : κ) (v : α)
    (h : dictHas (dictSet m k v) k' = true) :
    k' = k ∨ dictHas m k' = true := by
  rw [dictHas_set] at h
  by_cases hk : k' = k
  · exact .inl hk
  · refine .inr ?_
    have hd : decide (k = k') = false := decide_eq_false (fun he => hk he.symm)
    rwa [hd, Bool.false_or] at h

theorem dictHas_initRequested (l : List String) (k : String) :
    dictHas (initRequested l) k = true ↔ k ∈ l := by
  rw [dictHas, dictGet?_initRequested]
  by_cases hk : k ∈ l <;> simp [hk]

theorem processPdfFile_mono (env : ProcEnv) (p : String) (vars : VarMap)
    (k : String) (h : dictHas vars k = true) :
    dictHas (processPdfFile env p vars) k = true := by
  simp only [processPdfFile]
  repeat' split
  all_goals first
    | exact h
    | exact dictHas_set_mono _ _ _ _ h

theorem processPdfFile_sub (env : ProcEnv) (p : String) (vars : VarMap)
    (k : String) (h : dictHas (processPdfFile env p vars) k = true) :
    dictHas vars k = true := by
  simp only [processPdfFile] at h
  repeat' split at h
  all_goals first
    | exact h
    | (rcases dictHas_set_cases _ _ _ _ h with he | h2
       · subst he; assumption
       · exact h2)

theorem drillSet_mono (env : ProcEnv) (vars : VarMap) (p slot k : String)
    (h : dictHas vars k = true) :
    dictHas (drillSet env vars p slot) k = true := by
  simp only [drillSet]
  split
  · exact dictHas_set_mono _ _ _ _ h
  · exact h

theorem drillSet_sub (env : ProcEnv) (vars : VarMap) (p slot k : String)
    (hslot : slot ∈ unguardedSlots)
    (h : dictHas (drillSet env vars p slot) k = true) :
    dictHas vars k = true ∨ k ∈ unguardedSlots := by
  simp only [drillSet] at h
  split at h
  · rcases dictHas_set_cases _ _ _ _ h with he | h2
    · exact .inr (he ▸ hslot)
    · exact .inl h2
  · exact .inl h

theorem drillPair_mono (env : ProcEnv) (vars : VarMap)
    (p filename daySlot nightSlot k : String)
    (h : dictHas vars k = true) :
    dictHas (drillPair env vars p filename daySlot nightSlot) k = true := by
  simp only [drillPair]
  repeat' split
  all_goals first
    | exact h
    | exact drillSet_mono _ _ _ _ _ h
    | exact drillSet_mono _ _ _ _ _ (drillSet_mono _ _ _ _ _ h)

theorem drillPair_sub (env : ProcEnv) (vars : VarMap)
    (p filename daySlot nightSlot k : String)
    (ha : daySlot ∈ unguardedSlots) (hb : nightSlot ∈ unguardedSlots)
    (h : dictHas (drillPair env vars p filename daySlot nightSlot) k = true) :
    dictHas vars k = true ∨ k ∈ unguardedSlots := by
  simp only [drillPair] at h
  repeat' split at h
  all_goals first
    | exact .inl h
    | (rcases drillSet_sub _ _ _ _ _ (by assumption) h with h1 | h1
       · exact .inl h1
       · exact .inr h1)
    | (rcases drillSet_sub _ _ _ _ _ (by assumption) h with h1 | h1
       · rcases drillSet_sub _ _ _ _ _ (by assumption) h1 with h2 | h2
         · exact .inl h2
         · exact .inr h2
       · exact .inr h1)

theorem processMonitorFile_mono (env : ProcEnv) (vars : VarMap)
    (p k : String) (h : dictHas vars k = true) :
    dictHas (processMonitorFile env vars p) k = true := by
  simp only [processMonitorFile]
  repeat' split
  all_goals first
    | exact h
    | exact processPdfFile_mono _ _ _ _ h
    | exact dictHas_set_mono _ _ _ _ h
    | exact drillPair_mono _ _ _ _ _ _ _ h
    | exact drillPair_mono _ _ _ _ _ _ _ (drillPair_mono _ _ _ _ _ _ _ h)

theorem processMonitorFile_sub (env : ProcEnv) (vars : VarMap)
    (p k : String)
    (h : dictHas (processMonitorFile env vars p) k = true) :
    dictHas vars k = true ∨ k ∈ unguardedSlots := by
  simp only [processMonitorFile] at h
  repeat' split at h
  all_goals first
    | exact .inl h
    | exact .inl (processPdfFile_sub _ _ _ _ h)
    | (rcases dictHas_set_cases _ _ _ _ h with he | h2
       · exact .inl (by subst he; assumption)
       · exact .inl h2)
    | (rcases drillPair_sub _ _ _ _ _ _ _ (by decide) (by decide) h
        with h1 | h1
       · exact .inl h1
       · exact .inr h1)
    | (rcases drillPair_sub _ _ _ _ _ _ _ (by decide) (by decide) h
        with h1 | h1
       · rcases drillPair_sub _ _ _ _ _ _ _ (by decide) (by decide) h1
          with h2 | h2
         · exact .inl h2
         · exact .inr h2
       · exact .inr h1)

theorem processEquipmentFile_mono (env : ProcEnv) (vars : VarMap)
    (p k : String) (h : dictHas vars k = true) :
    dictHas (processEquipmentFile env vars p) k = true := by
  simp only [processEquipmentFile]
  repeat' split
  all_goals first
    | exact h
    | exact processPdfFile_mono _ _ _ _ h
    | exact dictHas_set_mono _ _ _ _ h

theorem processEquipmentFile_sub (env : ProcEnv) (vars : VarMap)
    (p k : String)
    (h : dictHas (processEquipmentFile env vars p) k = true) :
    dictHas vars k = true ∨ k ∈ unguardedSlots := by
  simp only [processEquipmentFile] at h
  repeat' split at h
  all_goals first
    | exact .inl h
    | exact .inl (processPdfFile_sub _ _ _ _ h)
    | (rcases dictHas_set_cases _ _ _ _ h with he | h2
       · exact .inl (by subst he; assumption)
       · exact .inl h2)

theorem processTrafficFile_mono (env : ProcEnv) (vars : VarMap) (p : String)
    (vars' : VarMap) (k : String)
    (hok : processTrafficFile env vars p = .ok vars')
    (h : dictHas vars k = true) : dictHas vars' k = true := by
  simp only [processTrafficFile] at hok
  repeat' split at hok
  all_goals first
    | exact Except.noConfusion hok
    | (rw [← Except.ok.inj hok]
       first
        | exact h
        | exact processPdfFile_mono _ _ _ _ h
        | exact dictHas_set_mono _ _ _ _ h
        | exact dictHas_set_mono _ _ _ _ (dictHas_set_mono _ _ _ _ h))

theorem processTrafficFile_sub (env : ProcEnv) (vars : VarMap) (p : String)
    (vars' : VarMap) (k : String)
    (hok : processTrafficFile env vars p = .ok vars')
    (h : dictHas vars' k = true) :
    dictHas vars k = true ∨ k ∈ unguardedSlots := by
  simp only [processTrafficFile] at hok
  repeat' split at hok
  all_goals first
    | exact Except.noConfusion hok
    | (rw [← Except.ok.inj hok] at h
       first
        | exact .inl h
        | exact .inl (processPdfFile_sub _ _ _ _ h)
        | (rcases dictHas_set_cases _ _ _ _ h with he | h2
           · exact .inl (by subst he; assumption)
           · exact .inl h2)
        | (rcases dictHas_set_cases _ _ _ _ h with he | h2
           · exact .inr (by subst he; decide)
           · exact .inl h2)
        | (rcases dictHas_set_cases _ _ _ _ h with he | h2
           · exact .inr (by subst he; decide)
           · rcases dictHas_set_cases _ _ _ _ h2 with he2 | h3
             · exact .inr (by subst he2; decide)
             · exact .inl h3))

theorem processMonthlyFile_mono (env : ProcEnv) (vars : VarMap) (p : String)
    (vars' : VarMap) (k : String)
    (hok : processMonthlyFile env vars p = .ok vars')
    (h : dictHas vars k = true) : dictHas vars' k = true := by
  simp only [processMonthlyFile] at hok
  repeat' split at hok
  all_goals first
    | exact Except.noConfusion hok
    | (rw [← Except.ok.inj hok]
       first
        | exact h
        | exact processPdfFile_mono _ _ _ _ h
        | exact dictHas_set_mono _ _ _ _ h
        | exact dictHas_set_mono _ _ _ _ (dictHas_set_mono _ _ _ _ h))

theorem processMonthlyFile_sub (env : ProcEnv) (vars : VarMap) (p : String)
    (vars' : VarMap) (k : String)
    (hok : processMonthlyFile env vars p = .ok vars')
    (h : dictHas vars' k = true) :
    dictHas vars k = true ∨ k ∈ unguardedSlots := by
  simp only [processMonthlyFile] at hok
  repeat' split at hok
  all_goals first
    | exact Except.noConfusion hok
    | (rw [← Except.ok.inj hok] at h
       first
        | exact .inl h
        | exact .inl (processPdfFile_sub _ _ _ _ h)
        | (rcases dictHas_set_cases _ _ _ _ h with he | h2
           · exact .inl (by subst he; assumption)
           · exact .inl h2)
        | (rcases dictHas_set_cases _ _ _ _ h with he | h2
           · exact .inr (by subst he; decide)
           · exact .inl h2)
        | (rcases dictHas_set_cases _ _ _ _ h with he | h2
           · exact .inr (by subst he; decide)
           · rcases dictHas_set_cases _ _ _ _ h2 with he2 | h3
             · exact .inr (by subst he2; decide)
             · exact .inl h3))

theorem foldl_step_mono (g : VarMap → String → VarMap)
    (hg : ∀ vars p k, dictHas vars k = true → dictHas (g vars p) k = true) :
    ∀ (files : List String) (vars : VarMap) (k : String),
      dictHas vars k = true → dictHas (files.foldl g vars) k = true := by
  intro files
  induction files with
  | nil => intro vars k hk; exact hk
  | cons p t ih =>
    intro vars k hk
    rw [List.foldl_cons]
    exact ih (g vars p) k (hg vars p k hk)

theorem foldl_step_sub (g : VarMap → String → VarMap)
    (hg : ∀ vars p k, dictHas (g vars p) k = true →
      dictHas vars k = true ∨ k ∈ unguardedSlots) :
    ∀ (files : List String) (vars : VarMap) (k : String),
      dictHas (files.foldl g vars) k = true →
        dictHas vars k = true ∨ k ∈ unguardedSlots := by
  intro files
  induction files with
  | nil => intro vars k hk; exact .inl hk
  | cons p t ih =>
    intro vars k hk
    rw [List.foldl_cons] at hk
    rcases ih (g vars p) k hk with h1 | h1
    · exact hg vars p k h1
    · exact .inr h1

theorem foldProcE_mono (f : VarMap → String → Except String VarMap)
    (hf : ∀ vars p vars', f vars p = .ok vars' →
      ∀ k, dictHas vars k = true → dictHas vars' k = true) :
    ∀ (files : List String) (vars vars' : VarMap),
      foldProcE f vars files = .ok vars' →
      ∀ k, dictHas vars k = true → dictHas vars' k = true := by
  intro files
  induction files with
  | nil =>
    intro vars vars' h k hk
    rw [← Except.ok.inj h]
    exact hk
  | cons p t ih =>
    intro vars vars' h k hk
    unfold foldProcE at h
    split at h
    · exact Except.noConfusion h
    · rename_i v hv
      exact ih v vars' h k (hf vars p v hv k hk)

theorem foldProcE_sub (f : VarMap → String → Except String VarMap)
    (hf : ∀ vars p vars', f vars p = .ok vars' →
      ∀ k, dictHas vars' k = true →
        dictHas vars k = true ∨ k ∈ unguardedSlots) :
    ∀ (files : List String) (vars vars' : VarMap),
      foldProcE f vars files = .ok vars' →
      ∀ k, dictHas vars' k = true →
        dictHas vars k = true ∨ k ∈ unguardedSlots := by
  intro files
  induction files with
  | nil =>
    intro vars vars' h k hk
    rw [← Except.ok.inj h] at hk
    exact .inl hk
  | cons p t ih =>
    intro vars vars' h k hk
    unfold foldProcE at h
    split at h
    · exact Except.noConfusion h
    · rename_i v hv
      rcases ih v vars' h k hk with h1 | h1
      · exact hf vars p v hv k h1
      · exact .inr h1

theorem processDirectory_mono (env : ProcEnv) (vars : VarMap) (dir : String)
    (files : List String) (vars' : VarMap)
    (h : processDirectory env vars dir files = .ok vars') (k : String)
    (hk : dictHas vars k = true) : dictHas vars' k = true := by
  unfold processDirectory at h
  split at h
  · rw [← Except.ok.inj h]
    exact foldl_step_mono _
      (fun v p k' hk' => processMonitorFile_mono env v p k' hk') files vars k hk
  · split at h
    · exact foldProcE_mono _
        (fun v p v' hv k' hk' => processTrafficFile_mono env v p v' k' hv hk')
        files vars vars' h k hk
    · split at h
      · rw [← Except.ok.inj h]
        exact foldl_step_mono _
          (fun v p k' hk' => processEquipmentFile_mono env v p k' hk')
          files vars k hk
      · split at h
        · exact foldProcE_mono _
            (fun v p v' hv k' hk' =>
              processMonthlyFile_mono env v p v' k' hv hk')
            files vars vars' h k hk
        · rw [← Except.ok.inj h]
          exact hk

theorem processDirectory_sub (env : ProcEnv) (vars : VarMap) (dir : String)
    (files : List String) (vars' : VarMap)
    (h : processDirectory env vars dir files = .ok vars') (k : String)
    (hk : dictHas vars' k = true) :
    dictHas vars k = true ∨ k ∈ unguardedSlots := by
  unfold processDirectory at h
  split at h
  · rw [← Except.ok.inj h] at hk
    exact foldl_step_sub _
      (fun v p k' hk' => processMonitorFile_sub env v p k' hk') files vars k hk
  · split at h
    · exact foldProcE_sub _
        (fun v p v' hv k' hk' => processTrafficFile_sub env v p v' k' hv hk')
        files vars vars' h k hk
    · split at h
      · rw [← Except.ok.inj h] at hk
        exact foldl_step_sub _
          (fun v p k' hk' => processEquipmentFile_sub env v p k' hk')
          files vars k hk
      · split at h
        · exact foldProcE_sub _
            (fun v p v' hv k' hk' =>
              processMonthlyFile_sub env v p v' k' hv hk')
            files vars vars' h k hk
        · rw [← Except.ok.inj h] at hk
          exact .inl hk

theorem foldDirs_mono (env : ProcEnv) :
    ∀ (dirs : List (String × List String)) (vars m : VarMap),
      foldDirs env vars dirs = .ok m →
      ∀ k, dictHas vars k = true → dictHas m k = true := by
  intro dirs
  induction dirs with
  | nil =>
    intro vars m h k hk
    rw [← Except.ok.inj h]
    exact hk
  | cons dhead t ih =>
    intro vars m h k hk
    unfold foldDirs at h
    split at h
    · exact Except.noConfusion h
    · rename_i v hv
      exact ih v m h k (processDirectory_mono env vars dhead.1 dhead.2 v hv k hk)

theorem foldDirs_sub (env : ProcEnv) :
    ∀ (dirs : List (String × List String)) (vars m : VarMap),
      foldDirs env vars dirs = .ok m →
      ∀ k, dictHas m k = true →
        dictHas vars k = true ∨ k ∈ unguardedSlots := by
  intro dirs
  induction dirs with
  | nil =>
    intro vars m h k hk
    rw [← Except.ok.inj h] at hk
    exact .inl hk
  | cons dhead t ih =>
    intro vars m h k hk
    unfold foldDirs at h
    split at h
    · exact Except.noConfusion h
    · rename_i v hv
      rcases ih v m h k hk with h1 | h1
      · exact processDirectory_sub env vars dhead.1 dhead.2 v hv k h1
      · exact .inr h1

/-- The key set of any completed run is bracketed between the initialised
keys (requested ∪ {year, month}) and those plus the unguarded slot
names — for every target date, discovered-file dictionary and conversion
environment. -/
theorem processAllFiles_keys (l : List String) (td : Option String)
    (now : RunDate) (fileDict : List (String × List String)) (env : ProcEnv)
    (hl : l ≠ []) (m : VarMap)
    (hres : processAllFiles (some l) td now fileDict env = .ok m)
    (k : String) :
    ((k ∈ l ∨ k = "year" ∨ k = "month") → dictHas m k = true)
    ∧ (dictHas m k = true →
        k ∈ l ∨ k = "year" ∨ k = "month" ∨ k ∈ unguardedSlots) := by
  have hv2 : ∀ k', dictHas (if dictHas (initRequested l) "report_date"
        then dictSet (initRequested l) "report_date" (.str now.reportDate)
        else initRequested l) k' = true ↔ k' ∈ l := by
    intro k'
    split
    · rename_i hrd
      constructor
      · intro h
        rcases dictHas_set_cases _ _ _ _ h with he | h2
        · subst he
          exact (dictHas_initRequested l _).mp hrd
        · exact (dictHas_initRequested l k').mp h2
      · intro h
        exact dictHas_set_mono _ _ _ _ ((dictHas_initRequested l k').mpr h)
    · exact dictHas_initRequested l k'
  have hv3 : ∀ (ys ms : PyVal) (k' : String),
      dictHas (dictSet (dictSet (if dictHas (initRequested l) "report_date"
          then dictSet (initRequested l) "report_date" (.str now.reportDate)
          else initRequested l) "year" ys) "month" ms) k' = true
        ↔ (k' ∈ l ∨ k' = "year" ∨ k' = "month") := by
    intro ys ms k'
    rw [dictHas_set, dictHas_set]
    simp only [Bool.or_eq_true, decide_eq_true_eq]
    rw [hv2 k']
    constructor
    · rintro (h | h | h)
      · exact .inr (.inr h.symm)
      · exact .inr (.inl h.symm)
      · exact .inl h
    · rintro (h | h | h)
      · exact .inr (.inr h)
      · exact .inr (.inl h.symm)
      · exact .inl h.symm
  have main : ∀ (ys ms : PyVal),
      foldDirs env (dictSet (dictSet (if dictHas (initRequested l) "report_date"
          then dictSet (initRequested l) "report_date" (.str now.reportDate)
          else initRequested l) "year" ys) "month" ms) fileDict = .ok m →
      ((k ∈ l ∨ k = "year" ∨ k = "month") → dictHas m k = true)
      ∧ (dictHas m k = true →
          k ∈ l ∨ k = "year" ∨ k = "month" ∨ k ∈ unguardedSlots) := by
    intro ys ms hfold
    constructor
    · intro hk
      exact foldDirs_mono env fileDict _ m hfold k ((hv3 ys ms k).mpr hk)
    · intro hk
      rcases foldDirs_sub env fileDict _ m hfold k hk with h | h
      · rcases (hv3 ys ms k).mp h with h | h | h
        · exact .inl h
        · exact .inr (.inl h)
        · exact .inr (.inr (.inl h))
      · exact .inr (.inr (.inr h))
  rcases td with _ | s
  · simp only [processAllFiles] at hres
    rw [if_pos hl] at hres
    exact main _ _ hres
  · simp only [processAllFiles] at hres
    rw [if_pos hl] at hres
    by_cases htrim : trimStr s = ""
    · rw [if_pos htrim] at hres
      exact main _ _ hres
    · rw [if_neg htrim] at hres
      exact main _ _ hres

/-- Counterexample to C1 as stated: the requested empty slot set is falsy
in Python, so `process_all_files` initialises the full catalog instead of
returning an empty map — the result's key set is not the requested
(empty) set. -/
theorem processAllFiles_empty_set :
    runKeys (processAllFiles (some []) (some "202505")
        ⟨"2025年10月12日", "2025", "09"⟩ []
        ⟨fun _ => false, fun _ _ => [], false, fun _ => .failed "",
          fun p => p⟩)
      ≠ some []
    ∧ runGet (processAllFiles (some []) (some "202505")
        ⟨"2025年10月12日", "2025", "09"⟩ []
        ⟨fun _ => false, fun _ _ => [], false, fun _ => .failed "",
          fun p => p⟩)
        "network_failure_stats"
      = some (.str "[网络故障统计：暂无数据]") := by
  exact ⟨by decide, by decide⟩

/-- C1 (amended): for every non-empty requested slot-name set, the
returned map always contains the requested names plus `year` and `month`
(which `process_all_files` writes unconditionally), and every completed
run's key set lies between requested ∪ {year, month} and that set plus
the unguarded slot names (the fault-drill and spreadsheet image slots,
which file processing adds without an `in variables` guard).  When no
source files are discovered the key set is exactly requested ∪
{year, month}: requested names in the catalog hold the catalog
placeholder (`report_date`, `year` and `month` are date-filled instead),
and unknown requested names hold the generic unknown-variable
placeholder.  The empty requested set is falsy and behaves like no set
at all (full catalog). -/
theorem processAllFiles_requested_keys (l : List String) (td : Option String)
    (d : String) (now : RunDate) (fileDict : List (String × List String))
    (env : ProcEnv) (hl : l ≠ []) :
    (∀ k, runOk (processAllFiles (some l) td now fileDict env) = true →
        (((k ∈ l ∨ k = "year" ∨ k = "month") →
            (runGet (processAllFiles (some l) td now fileDict env) k).isSome
              = true)
         ∧ ((runGet (processAllFiles (some l) td now fileDict env) k).isSome
              = true →
            k ∈ l ∨ k = "year" ∨ k = "month" ∨ k ∈ unguardedSlots)))
    ∧ (runOk (processAllFiles (some l) (some d) now [] env) = true)
    ∧ (∀ k, (runGet (processAllFiles (some l) (some d) now [] env) k).isSome
          ↔ (k ∈ l ∨ k = "year" ∨ k = "month"))
    ∧ (∀ k ∈ l, dictGet? variableMapping k = none →
        runGet (processAllFiles (some l) (some d) now [] env) k
          = some (.str ("[未知变量: " ++ k ++ "]")))
    ∧ (∀ k ∈ l, ∀ lab, dictGet? variableMapping k = some lab →
        k ≠ "report_date" → k ≠ "year" → k ≠ "month" →
        runGet (processAllFiles (some l) (some d) now [] env) k
          = some (.str ("[" ++ lab ++ "：暂无数据]")))
    ∧ ("report_date" ∈ l →
        runGet (processAllFiles (some l) (some d) now [] env) "report_date"
          = some (.str now.reportDate)) := by
  refine ⟨?_, ?_⟩
  · intro k hok
    rcases hres : processAllFiles (some l) td now fileDict env with e | m
    · rw [hres] at hok
      simp [runOk] at hok
    · simp only [runGet]
      have hb := processAllFiles_keys l td now fileDict env hl m hres k
      exact ⟨fun hk => hb.1 hk, fun hk => hb.2 hk⟩
  rw [processAllFiles_nofiles l d now env hl]
  simp only [runOk, runGet]
  refine ⟨trivial, ?_, ?_, ?_, ?_⟩
  · intro k
    rw [dictGet?_set, dictGet?_set]
    by_cases hm : "month" = k
    · subst hm
      simp
    · rw [if_neg hm]
      by_cases hy : "year" = k
      · subst hy
        simp
      · rw [if_neg hy]
        by_cases hrd : "report_date" ∈ l
        · rw [if_pos hrd, dictGet?_set]
          by_cases hk : "report_date" = k
          · subst hk
            simp [hrd]
          · rw [if_neg hk, dictGet?_initRequested]
            by_cases hkl : k ∈ l
            · simp [hkl]
            · rw [if_neg hkl]
              simp only [Option.isSome_none, Bool.false_eq_true, false_iff]
              rintro (h | h | h)
              · exact hkl h
              · exact hy h.symm
              · exact hm h.symm
        · rw [if_neg hrd, dictGet?_initRequested]
          by_cases hkl : k ∈ l
          · simp [hkl]
          · rw [if_neg hkl]
            simp only [Option.isSome_none, Bool.false_eq_true, false_iff]
            rintro (h | h | h)
            · exact hkl h
            · exact hy h.symm
            · exact hm h.symm
  · intro k hkl hnone
    have hkm : k ≠ "month" := by
      intro h; rw [h] at hnone; exact absurd hnone (by decide)
    have hky : k ≠ "year" := by
      intro h; rw [h] at hnone; exact absurd hnone (by decide)
    have hkrd : k ≠ "report_date" := by
      intro h; rw [h] at hnone; exact absurd hnone (by decide)
    rw [dictGet?_set, dictGet?_set, if_neg (fun h => hkm h.symm),
      if_neg (fun h => hky h.symm)]
    by_cases hrd : "report_date" ∈ l
    · rw [if_pos hrd, dictGet?_set, if_neg (fun h => hkrd h.symm),
        dictGet?_initRequested, if_pos hkl, initValue, hnone]
    · rw [if_neg hrd, dictGet?_initRequested, if_pos hkl, initValue, hnone]
  · intro k hkl lab hlab hkrd hky hkm
    rw [dictGet?_set, dictGet?_set, if_neg (fun h => hkm h.symm),
      if_neg (fun h => hky h.symm)]
    by_cases hrd : "report_date" ∈ l
    · rw [if_pos hrd, dictGet?_set, if_neg (fun h => hkrd h.symm),
        dictGet?_initRequested, if_pos hkl, initValue, hlab]
    · rw [if_neg hrd, dictGet?_initRequested, if_pos hkl, initValue, hlab]
  · intro hrd
    rw [dictGet?_set, dictGet?_set, if_neg (by decide), if_neg (by decide),
      if_pos hrd, dictGet?_set_self]

theorem processAllFiles_requested_keys_witness :
    ((["network_failure_stats", "bogus_slot"] : List String) ≠ [])
    ∧ ((∀ k, runOk (processAllFiles
            (some ["network_failure_stats", "bogus_slot"]) none
            ⟨"2025年10月12日", "2025", "09"⟩ []
            ⟨fun _ => false, fun _ _ => [], false, fun _ => .failed "",
              fun p => p⟩) = true →
          (((k ∈ ["network_failure_stats", "bogus_slot"]
              ∨ k = "year" ∨ k = "month") →
              (runGet (processAllFiles
                (some ["network_failure_stats", "bogus_slot"]) none
                ⟨"2025年10月12日", "2025", "09"⟩ []
                ⟨fun _ => false, fun _ _ => [], false, fun _ => .failed "",
                  fun p => p⟩) k).isSome = true)
           ∧ ((runGet (processAllFiles
                (some ["network_failure_stats", "bogus_slot"]) none
                ⟨"2025年10月12日", "2025", "09"⟩ []
                ⟨fun _ => false, fun _ _ => [], false, fun _ => .failed "",
                  fun p => p⟩) k).isSome = true →
              k ∈ ["network_failure_stats", "bogus_slot"]
                ∨ k = "year" ∨ k = "month" ∨ k ∈ unguardedSlots)))
      ∧ (runOk (processAllFiles (some ["network_failure_stats", "bogus_slot"])
          (some "202505") ⟨"2025年10月12日", "2025", "09"⟩ []
          ⟨fun _ => false, fun _ _ => [], false, fun _ => .failed "",
            fun p => p⟩) = true)
      ∧ (∀ k, (runGet (processAllFiles
            (some ["network_failure_stats", "bogus_slot"]) (some "202505")
            ⟨"2025年10月12日", "2025", "09"⟩ []
            ⟨fun _ => false, fun _ _ => [], false, fun _ => .failed "",
              fun p => p⟩) k).isSome
          ↔ (k ∈ ["network_failure_stats", "bogus_slot"]
              ∨ k = "year" ∨ k = "month"))
      ∧ (∀ k ∈ ["network_failure_stats", "bogus_slot"],
          dictGet? variableMapping k = none →
          runGet (processAllFiles (some ["network_failure_stats", "bogus_slot"])
            (some "202505") ⟨"2025年10月12日", "2025", "09"⟩ []
            ⟨fun _ => false, fun _ _ => [], false, fun _ => .failed "",
              fun p => p⟩) k = some (.str ("[未知变量: " ++ k ++ "]")))
      ∧ (∀ k ∈ ["network_failure_stats", "bogus_slot"], ∀ lab,
          dictGet? variableMapping k = some lab →
          k ≠ "report_date" → k ≠ "year" → k ≠ "month" →
          runGet (processAllFiles (some ["network_failure_stats", "bogus_slot"])
            (some "202505") ⟨"2025年10月12日", "2025", "09"⟩ []
            ⟨fun _ => false, fun _ _ => [], false, fun _ => .failed "",
              fun p => p⟩) k = some (.str ("[" ++ lab ++ "：暂无数据]")))
      ∧ ("report_date" ∈ ["network_failure_stats", "bogus_slot"] →
          runGet (processAllFiles (some ["network_failure_stats", "bogus_slot"])
            (some "202505") ⟨"2025年10月12日", "2025", "09"⟩ []
            ⟨fun _ => false, fun _ _ => [], false, fun _ => .failed "",
              fun p => p⟩) "report_date"
            = some (.str (⟨"2025年10月12日", "2025", "09"⟩ : RunDate).reportDate))) :=
  ⟨by decide,
   processAllFiles_requested_keys ["network_failure_stats", "bogus_slot"]
     none "202505" ⟨"2025年10月12日", "2025", "09"⟩ []
     ⟨fun _ => false, fun _ _ => [], false, fun _ => .failed "", fun p => p⟩
     (by decide)⟩

/-! ### The report date is never overwritten by file processing -/

theorem processPdfFile_rd (env : ProcEnv) (p : String) (vars : VarMap) :
    dictGet? (processPdfFile env p vars) "report_date"
      = dictGet? vars "report_date" := by
  simp only [processPdfFile]
  repeat' split
  all_goals first
    | rfl
    | (exact dictGet?_set_ne _ _ _ _ (by decide))

theorem drillSet_rd (env : ProcEnv) (vars : VarMap) (p slot : String)
    (h : slot ≠ "report_date") :
    dictGet? (drillSet env vars p slot) "report_date"
      = dictGet? vars "report_date" := by
  simp only [drillSet]
  split
  · exact dictGet?_set_ne _ _ _ _ h
  · rfl

theorem drillPair_rd (env : ProcEnv) (vars : VarMap)
    (p filename daySlot nightSlot : String)
    (h1 : daySlot ≠ "report_date") (h2 : nightSlot ≠ "report_date") :
    dictGet? (drillPair env vars p filename daySlot nightSlot) "report_date"
      = dictGet? vars "report_date" := by
  simp only [drillPair]
  repeat' split
  all_goals ((repeat rw [drillSet_rd _ _ _ _ (by assumption)]); try rfl)

theorem processMonitorFile_rd (env : ProcEnv) (vars : VarMap) (p : String) :
    dictGet? (processMonitorFile env vars p) "report_date"
      = dictGet? vars "report_date" := by
  simp only [processMonitorFile]
  repeat' split
  all_goals first
    | rfl
    | (exact processPdfFile_rd _ _ _)
    | (exact dictGet?_set_ne _ _ _ _ (by decide))
    | ((repeat rw [drillPair_rd _ _ _ _ _ _ (by decide) (by decide)]); try rfl)

theorem processEquipmentFile_rd (env : ProcEnv) (vars : VarMap) (p : String) :
    dictGet? (processEquipmentFile env vars p) "report_date"
      = dictGet? vars "report_date" := by
  simp only [processEquipmentFile]
  repeat' split
  all_goals first
    | rfl
    | (exact processPdfFile_rd _ _ _)
    | (exact dictGet?_set_ne _ _ _ _ (by decide))

theorem processTrafficFile_rd (env : ProcEnv) (vars : VarMap) (p : String)
    (vars' : VarMap) (h : processTrafficFile env vars p = .ok vars') :
    dictGet? vars' "report_date" = dictGet? vars "report_date" := by
  simp only [processTrafficFile] at h
  repeat' split at h
  all_goals first
    | exact Except.noConfusion h
    | (rw [← Except.ok.inj h]
       first
        | exact processPdfFile_rd _ _ _
        | ((repeat rw [dictGet?_set_ne _ _ _ _ (by decide)]); try rfl))

theorem processMonthlyFile_rd (env : ProcEnv) (vars : VarMap) (p : String)
    (vars' : VarMap) (h : processMonthlyFile env vars p = .ok vars') :
    dictGet? vars' "report_date" = dictGet? vars "report_date" := by
  simp only [processMonthlyFile] at h
  repeat' split at h
  all_goals first
    | exact Except.noConfusion h
    | (rw [← Except.ok.inj h]
       first
        | exact processPdfFile_rd _ _ _
        | ((repeat rw [dictGet?_set_ne _ _ _ _ (by decide)]); try rfl))

theorem foldl_step_rd (g : VarMap → String → VarMap)
    (hg : ∀ vars p, dictGet? (g vars p) "report_date"
      = dictGet? vars "report_date") :
    ∀ (files : List String) (vars : VarMap),
      dictGet? (files.foldl g vars) "report_date"
        = dictGet? vars "report_date" := by
  intro files
  induction files with
  | nil => intro vars; rfl
  | cons p t ih =>
    intro vars
    rw [List.foldl_cons, ih, hg]

theorem foldProcE_rd (f : VarMap → String → Except String VarMap)
    (hf : ∀ vars p vars', f vars p = .ok vars' →
      dictGet? vars' "report_date" = dictGet? vars "report_date") :
    ∀ (files : List String) (vars vars' : VarMap),
      foldProcE f vars files = .ok vars' →
        dictGet? vars' "report_date" = dictGet? vars "report_date" := by
  intro files
  induction files with
  | nil =>
    intro vars vars' h
    rw [← Except.ok.inj h]
  | cons p t ih =>
    intro vars vars' h
    unfold foldProcE at h
    split at h
    · exact Except.noConfusion h
    · rename_i v hv
      rw [ih v vars' h, hf vars p v hv]

theorem processDirectory_rd (env : ProcEnv) (vars : VarMap) (dir : String)
    (files : List String) (vars' : VarMap)
    (h : processDirectory env vars dir files = .ok vars') :
    dictGet? vars' "report_date" = dictGet? vars "report_date" := by
  unfold processDirectory at h
  split at h
  · rw [← Except.ok.inj h]
    exact foldl_step_rd _ (fun v p => processMonitorFile_rd env v p) files vars
  · split at h
    · exact foldProcE_rd _ (fun v p v' hv => processTrafficFile_rd env v p v' hv)
        files vars vars' h
    · split at h
      · rw [← Except.ok.inj h]
        exact foldl_step_rd _ (fun v p => processEquipmentFile_rd env v p)
          files vars
      · split at h
        · exact foldProcE_rd _
            (fun v p v' hv => processMonthlyFile_rd env v p v' hv)
            files vars vars' h
        · rw [← Except.ok.inj h]

theorem foldDirs_rd (env : ProcEnv) :
    ∀ (dirs : List (String × List String)) (vars m : VarMap),
      foldDirs env vars dirs = .ok m →
        dictGet? m "report_date" = dictGet? vars "report_date" := by
  intro dirs
  induction dirs with
  | nil =>
    intro vars m h
    rw [← Except.ok.inj h]
  | cons dhead t ih =>
    intro vars m h
    unfold foldDirs at h
    split at h
    · exact Except.noConfusion h
    · rename_i v hv
      rw [ih v m h, processDirectory_rd env vars dhead.1 dhead.2 v hv]

/-- C10: whenever `report_date` is among the requested slot names and
`process_all_files` completes, the returned map binds `report_date` to
the run-date string `datetime.now().strftime('%Y年%m月%d日')` — never the
catalog placeholder — independently of the target date, the discovered
files and the conversion outcomes. -/
theorem processAllFiles_report_date (l : List String)
    (targetDate : Option String) (now : RunDate)
    (fileDict : List (String × List String)) (env : ProcEnv)
    (hrd : "report_date" ∈ l)
    (hok : runOk (processAllFiles (some l) targetDate now fileDict env)
      = true) :
    runGet (processAllFiles (some l) targetDate now fileDict env)
        "report_date" = some (.str now.reportDate) := by
  have hl : l ≠ [] := by
    intro h
    rw [h] at hrd
    simp at hrd
  rcases hres : processAllFiles (some l) targetDate now fileDict env with
    e | m
  · rw [hres] at hok
    simp [runOk] at hok
  · simp only [runGet]
    have hhas : dictHas (initRequested l) "report_date" = true := by
      rw [dictHas, dictGet?_initRequested, if_pos hrd]
      rfl
    have hv2 : dictGet? (dictSet (initRequested l) "report_date"
        (.str now.reportDate)) "report_date" = some (.str now.reportDate) :=
      dictGet?_set_self _ _ _
    rcases targetDate with _ | s
    · simp only [processAllFiles] at hres
      rw [if_pos hl, hhas, if_pos rfl] at hres
      rw [foldDirs_rd env fileDict _ m hres, dictGet?_set_ne _ _ _ _ (by decide),
        dictGet?_set_ne _ _ _ _ (by decide), hv2]
    · simp only [processAllFiles] at hres
      rw [if_pos hl, hhas, if_pos rfl] at hres
      by_cases htrim : trimStr s = ""
      · rw [if_pos htrim] at hres
        rw [foldDirs_rd env fileDict _ m hres,
          dictGet?_set_ne _ _ _ _ (by decide),
          dictGet?_set_ne _ _ _ _ (by decide), hv2]
      · rw [if_neg htrim] at hres
        rw [foldDirs_rd env fileDict _ m hres,
          dictGet?_set_ne _ _ _ _ (by decide),
          dictGet?_set_ne _ _ _ _ (by decide), hv2]

theorem processAllFiles_report_date_witness :
    ("report_date" ∈ (["report_date"] : List String))
    ∧ (runOk (processAllFiles (some ["report_date"]) (some "202505")
        ⟨"2025年10月12日", "2025", "09"⟩ []
        ⟨fun _ => false, fun _ _ => [], false, fun _ => .failed "",
          fun p => p⟩) = true)
    ∧ runGet (processAllFiles (some ["report_date"]) (some "202505")
        ⟨"2025年10月12日", "2025", "09"⟩ []
        ⟨fun _ => false, fun _ _ => [], false, fun _ => .failed "",
          fun p => p⟩) "report_date"
      = some (.str (⟨"2025年10月12日", "2025", "09"⟩ : RunDate).reportDate) :=
  ⟨by decide, by decide,
   processAllFiles_report_date ["report_date"] (some "202505")
     ⟨"2025年10月12日", "2025", "09"⟩ []
     ⟨fun _ => false, fun _ _ => [], false, fun _ => .failed "", fun p => p⟩
     (by decide) (by decide)⟩

/-! ### The two-slot spreadsheet convention -/

/-- C2: evaluation of the two-slot spreadsheet rules.  With exactly two
images both slots are filled positionally and with zero images neither
is, as claimed; but with exactly one image the `if imgs[1]:` read in
`_process_core_network_traffic_statistics_report_files` and
`_process_monthly_plan_and_summary_files` is out of range and raises
`IndexError` instead of leaving the second slot unset. -/
theorem twoSlot_one_image_raises :
    processTrafficFile
        ⟨fun _ => true, fun _ _ => ["img1.png"], false,
         fun _ => .failed "", fun p => p⟩
        [] "dir/互联网出口业务流量统计报表.xlsx"
      = .error "IndexError: list index out of range"
    ∧ processMonthlyFile
        ⟨fun _ => true, fun _ _ => ["img1.png"], false,
         fun _ => .failed "", fun p => p⟩
        [] "dir/计划性项目表.xlsx"
      = .error "IndexError: list index out of range"
    ∧ processTrafficFile
        ⟨fun _ => true, fun _ _ => ["img1.png", "img2.png"], false,
         fun _ => .failed "", fun p => p⟩
        [] "dir/互联网出口业务流量统计报表.xlsx"
      = .ok [("internet_traffic_stats", .image "img1.png"),
             ("isp_bandwidth", .image "img2.png")]
    ∧ processTrafficFile
        ⟨fun _ => true, fun _ _ => [], false,
         fun _ => .failed "", fun p => p⟩
        [] "dir/互联网出口业务流量统计报表.xlsx"
      = .ok [] :=
  ⟨rfl, rfl, rfl, rfl⟩

end Doc
